import Mathlib

/-!
Verification of the USDA nutrient database build pipeline
(`setup_nutrient_db.py`) against its natural-language specification.

The development shallowly embeds the parts of the pipeline that the
claims concern:

* the checkpointed fact importer `import_nutrient_data` (SQLite tables
  are modelled as association lists keyed by their primary keys, SQLite
  `REAL` values as `ℚ`, `INSERT OR REPLACE` as a delete-then-insert
  upsert, the `CURRENT_TIMESTAMP` column as a strictly increasing
  counter);
* the category classifier `find_category_id` together with the static
  synonym/brand configuration of `import_foundation_foods`;
* the ranking and scoring engine `update_rankings_and_scores` with its
  three passes `calculate_nutrient_rankings`, `calculate_density_scores`
  and `update_common_nutrients_mv`.

Python's bounded `for i in range(start, total, batch_size)` loop is
embedded as a structurally recursive function with an explicit bound
(`fuel`); the top level supplies `fuel = total`, which is shown to be
sufficient whenever `batch_size > 0` (the source fixes it to 100000).
-/

/-! ## Generic association-list machinery

SQLite tables with a primary key are modelled as `List (κ × β)`.  The
row order of a SQL table is immaterial; all claims are stated at the
level of key lookups and row membership.  `upsertA` models
`INSERT OR REPLACE` (SQLite deletes the conflicting row and inserts the
new one).  `lastBy` is "the payload of the last element that matches",
the semantics of repeated overwrites.
-/

/-- Left-biased choice on `Option`, written out so that all lemmas are
simple case splits. -/
def oo {α : Type} : Option α → Option α → Option α
  | some a, _ => some a
  | none, y => y

theorem oo_none_right {α : Type} (x : Option α) : oo x none = x := by
  cases x <;> rfl

theorem oo_none_left {α : Type} (x : Option α) : oo none x = x := rfl

theorem oo_some_left {α : Type} (a : α) (x : Option α) : oo (some a) x = some a := rfl

theorem oo_assoc {α : Type} (x y z : Option α) : oo (oo x y) z = oo x (oo y z) := by
  cases x <;> cases y <;> rfl

/-- The payload of the last element of `l` on which `g` fires. -/
def lastBy {α β : Type} (g : α → Option β) (l : List α) : Option β :=
  l.foldl (fun acc x => oo (g x) acc) none

theorem lastBy_nil {α β : Type} (g : α → Option β) : lastBy g [] = none := rfl

theorem lastBy_foldl_init {α β : Type} (g : α → Option β) (l : List α) (init : Option β) :
    l.foldl (fun acc x => oo (g x) acc) init = oo (lastBy g l) init := by
  induction l generalizing init with
  | nil => cases init <;> rfl
  | cons x t ih =>
    show t.foldl _ (oo (g x) init) = oo (lastBy g (x :: t)) init
    rw [ih (oo (g x) init)]
    have hx : lastBy g (x :: t) = oo (lastBy g t) (oo (g x) none) := by
      show t.foldl _ (oo (g x) none) = _
      rw [ih (oo (g x) none)]
    rw [hx]
    cases lastBy g t <;> cases g x <;> cases init <;> rfl

theorem lastBy_cons {α β : Type} (g : α → Option β) (x : α) (t : List α) :
    lastBy g (x :: t) = oo (lastBy g t) (g x) := by
  show t.foldl _ (oo (g x) none) = _
  rw [lastBy_foldl_init]
  cases lastBy g t <;> cases g x <;> rfl

theorem lastBy_append {α β : Type} (g : α → Option β) (l₁ l₂ : List α) :
    lastBy g (l₁ ++ l₂) = oo (lastBy g l₂) (lastBy g l₁) := by
  rw [lastBy, List.foldl_append, lastBy_foldl_init]
  rfl

/-- Lookup in an association list with last-write-wins semantics.  On
lists with `Nodup` keys (the invariant all our tables maintain) this is
ordinary unique lookup. -/
def mapLookup {κ β : Type} [DecidableEq κ] (m : List (κ × β)) (k : κ) : Option β :=
  lastBy (fun p => if p.1 = k then some p.2 else none) m

theorem mapLookup_nil {κ β : Type} [DecidableEq κ] (k : κ) :
    mapLookup ([] : List (κ × β)) k = none := rfl

theorem mapLookup_cons {κ β : Type} [DecidableEq κ] (p : κ × β) (t : List (κ × β)) (k : κ) :
    mapLookup (p :: t) k = oo (mapLookup t k) (if p.1 = k then some p.2 else none) :=
  lastBy_cons _ _ _

theorem mapLookup_append {κ β : Type} [DecidableEq κ] (m₁ m₂ : List (κ × β)) (k : κ) :
    mapLookup (m₁ ++ m₂) k = oo (mapLookup m₂ k) (mapLookup m₁ k) :=
  lastBy_append _ _ _

theorem mapLookup_eq_none_of_not_mem_keys {κ β : Type} [DecidableEq κ]
    (m : List (κ × β)) (k : κ) (h : k ∉ m.map Prod.fst) : mapLookup m k = none := by
  induction m with
  | nil => rfl
  | cons p t ih =>
    simp only [List.map_cons, List.mem_cons, not_or] at h
    rw [mapLookup_cons, ih h.2, if_neg (fun hh => h.1 hh.symm)]
    rfl

theorem mem_iff_mapLookup {κ β : Type} [DecidableEq κ]
    (m : List (κ × β)) (hnd : (m.map Prod.fst).Nodup) (k : κ) (v : β) :
    (k, v) ∈ m ↔ mapLookup m k = some v := by
  induction m with
  | nil => simp [mapLookup_nil]
  | cons p t ih =>
    obtain ⟨k₀, v₀⟩ := p
    simp only [List.map_cons, List.nodup_cons] at hnd
    rw [mapLookup_cons]
    by_cases hk : k₀ = k
    · subst hk
      have ht : mapLookup t k₀ = none := mapLookup_eq_none_of_not_mem_keys t k₀ hnd.1
      rw [ht, if_pos rfl, oo_none_left]
      constructor
      · intro hmem
        rcases List.mem_cons.1 hmem with he | hmem'
        · injection he with h₁ h₂
          rw [h₂]
        · exact absurd (List.mem_map_of_mem Prod.fst hmem') hnd.1
      · intro h
        have hv : v₀ = v := by injection h
        rw [← hv]
        exact List.mem_cons_self _ _
    · rw [if_neg hk, oo_none_right]
      constructor
      · intro hmem
        rcases List.mem_cons.1 hmem with he | hmem'
        · injection he with h₁ h₂
          exact absurd h₁.symm hk
        · exact (ih hnd.2).1 hmem'
      · intro h
        exact List.mem_cons_of_mem _ ((ih hnd.2).2 h)

/-- `INSERT OR REPLACE`: SQLite deletes any row that conflicts on the
primary key and inserts the new row. -/
def upsertA {κ β : Type} [DecidableEq κ] (m : List (κ × β)) (k : κ) (v : β) : List (κ × β) :=
  (m.filter (fun p => decide (p.1 ≠ k))) ++ [(k, v)]

theorem mapLookup_filter_ne {κ β : Type} [DecidableEq κ] (m : List (κ × β)) (k k' : κ)
    (h : k' ≠ k) :
    mapLookup (m.filter (fun p => decide (p.1 ≠ k))) k' = mapLookup m k' := by
  induction m with
  | nil => rfl
  | cons p t ih =>
    by_cases hp : p.1 = k
    · rw [List.filter_cons_of_neg (by simpa using hp), mapLookup_cons, ih,
        if_neg (show ¬p.1 = k' from fun hh => h (hh ▸ hp)), oo_none_right]
    · rw [List.filter_cons_of_pos (by simpa using hp), mapLookup_cons, mapLookup_cons, ih]

theorem keys_filter_not_mem {κ β : Type} [DecidableEq κ] (m : List (κ × β)) (k : κ) :
    k ∉ (m.filter (fun p => decide (p.1 ≠ k))).map Prod.fst := by
  intro h
  obtain ⟨p, hp, hpk⟩ := List.exists_of_mem_map h
  have := List.of_mem_filter hp
  simp only [decide_eq_true_eq] at this
  exact this hpk

theorem mapLookup_upsertA {κ β : Type} [DecidableEq κ] (m : List (κ × β)) (k k' : κ) (v : β) :
    mapLookup (upsertA m k v) k' = if k' = k then some v else mapLookup m k' := by
  unfold upsertA
  rw [mapLookup_append]
  by_cases hk : k' = k
  · subst hk
    rw [if_pos rfl, mapLookup_cons, mapLookup_nil, if_pos rfl]
    rfl
  · rw [if_neg hk, mapLookup_cons, mapLookup_nil,
      if_neg (fun hh : k = k' => hk hh.symm), mapLookup_filter_ne m k k' hk]
    rfl

theorem keys_upsertA_nodup {κ β : Type} [DecidableEq κ] (m : List (κ × β)) (k : κ) (v : β)
    (hnd : (m.map Prod.fst).Nodup) : ((upsertA m k v).map Prod.fst).Nodup := by
  unfold upsertA
  rw [List.map_append]
  rw [List.nodup_append]
  refine ⟨?_, List.nodup_singleton k, ?_⟩
  · exact ((List.filter_sublist m).map Prod.fst).nodup hnd
  · intro a ha hb
    simp only [List.map_cons, List.map_nil, List.mem_singleton] at hb
    subst hb
    exact keys_filter_not_mem m a ha

theorem mem_upsertA {κ β : Type} [DecidableEq κ] {m : List (κ × β)} {k : κ} {v : β}
    {q : κ × β} (h : q ∈ upsertA m k v) : q = (k, v) ∨ q ∈ m := by
  unfold upsertA at h
  rcases List.mem_append.1 h with h | h
  · exact Or.inr (List.mem_of_mem_filter h)
  · left; simpa using h

/-- Folding a list of key/value pairs into a map by repeated upserts. -/
def insertAll {κ β : Type} [DecidableEq κ] (m : List (κ × β)) (l : List (κ × β)) :
    List (κ × β) :=
  l.foldl (fun acc kv => upsertA acc kv.1 kv.2) m

theorem mapLookup_insertAll {κ β : Type} [DecidableEq κ] (m l : List (κ × β)) (k : κ) :
    mapLookup (insertAll m l) k = oo (mapLookup l k) (mapLookup m k) := by
  induction l generalizing m with
  | nil => rfl
  | cons kv t ih =>
    show mapLookup (insertAll (upsertA m kv.1 kv.2) t) k = _
    rw [ih, mapLookup_cons, mapLookup_upsertA]
    by_cases hk : k = kv.1
    · rw [if_pos hk, if_pos hk.symm]
      cases htk : mapLookup t k <;> rfl
    · rw [if_neg hk, if_neg (fun hh : kv.1 = k => hk hh.symm)]
      cases htk : mapLookup t k <;> rfl

theorem keys_insertAll_nodup {κ β : Type} [DecidableEq κ] (m l : List (κ × β))
    (hnd : (m.map Prod.fst).Nodup) : ((insertAll m l).map Prod.fst).Nodup := by
  induction l generalizing m with
  | nil => exact hnd
  | cons kv t ih => exact ih _ (keys_upsertA_nodup _ _ _ hnd)

theorem mem_insertAll {κ β : Type} [DecidableEq κ] {m l : List (κ × β)} {q : κ × β}
    (h : q ∈ insertAll m l) : q ∈ m ∨ q ∈ l := by
  induction l generalizing m with
  | nil => exact Or.inl h
  | cons kv t ih =>
    rcases ih h with h' | h'
    · rcases mem_upsertA h' with h'' | h''
      · right
        rw [h'']
        exact List.mem_cons_self _ _
      · left; exact h''
    · right; exact List.mem_cons_of_mem _ h'

/-! ## Data model of the checkpointed fact importer

`import_nutrient_data` reads `food_nutrient.csv` (columns `fdc_id`,
`nutrient_id`, `amount`), stages rows in the temporary table
`temp_nutrients` keyed by `(fdc_id, nutrient_id)`, and flushes them into
`food_nutrients` keyed by `(food_id, nutrient_id)` via a join with
`foods` on `fdc_id`.  A source amount is either SQL `NULL`, a numeric
value, or a non-null value on which Python's `float` raises
(`Amt.bad`). -/

inductive Amt : Type where
  | null : Amt
  | num : ℚ → Amt
  | bad : Amt
deriving DecidableEq

/-- One record of the `food_nutrient.csv` fact file. -/
structure SrcRow : Type where
  fdc_id : ℤ
  nutrient_id : ℤ
  amount : Amt
deriving DecidableEq

/-- One row of the `foods` dimension table (`id` is the surrogate
primary key, `fdc_id` the unique business key). -/
structure Food : Type where
  id : ℤ
  fdc_id : ℤ
  name : String
deriving DecidableEq

/-- One row of the append-only `import_checkpoint` log.  SQLite's
`CURRENT_TIMESTAMP` default is modelled by the strictly increasing
counter `time` (wall-clock timestamps of successive inserts are
nondecreasing; sub-second ties are idealised away). -/
structure Ckpt : Type where
  table_name : String
  last_processed : ℕ
  total_records : ℕ
  status : String
  time : ℕ
deriving DecidableEq

/-- The staging table `temp_nutrients`: `(fdc_id, nutrient_id) ↦ amount`. -/
abbrev TempMap : Type := List ((ℤ × ℤ) × ℚ)

/-- The permanent table `food_nutrients`:
`(food_id, nutrient_id) ↦ (amount, confidence_score)`. -/
abbrev FnMap : Type := List ((ℤ × ℤ) × (ℚ × ℚ))

/-- The durable database state the importer reads and writes: the
`food_nutrients` table and the `import_checkpoint` log. -/
structure ImportState : Type where
  fns : FnMap
  log : List Ckpt
deriving DecidableEq

/-- In-flight state of the batch loop: the staging table, the durable
state, and the list of durable snapshots taken at each mid-run
checkpoint commit (the points at which an interrupt can leave the
database). -/
structure LoopSt : Type where
  temp : TempMap
  fns : FnMap
  log : List Ckpt
  commits : List ImportState
deriving DecidableEq

/-- `SELECT id FROM foods WHERE fdc_id = ?` (the `JOIN foods f ON
f.fdc_id = t.fdc_id` of the flush statement; `fdc_id` is UNIQUE, so
`find?` returns the row). -/
def fdcToId (foods : List Food) (fdc : ℤ) : Option ℤ :=
  (foods.find? (fun f => decide (f.fdc_id = fdc))).map (fun f => f.id)

/-- `SELECT fdc_id FROM foods WHERE id = ?` (the backward join used when
reloading the staging table on resume; `id` is the primary key). -/
def idToFdc (foods : List Food) (fid : ℤ) : Option ℤ :=
  (foods.find? (fun f => decide (f.id = fid))).map (fun f => f.fdc_id)

/-- A fresh `CURRENT_TIMESTAMP`: strictly larger than every timestamp
already in the log. -/
def newTime (log : List Ckpt) : ℕ :=
  log.foldl (fun a c => max a c.time) 0 + 1

/-- `INSERT INTO import_checkpoint (table_name, last_processed,
total_records, status) VALUES ('food_nutrients', ?, ?, ?)`. -/
def addCkpt (log : List Ckpt) (status : String) (last total : ℕ) : List Ckpt :=
  log ++ [⟨"food_nutrients", last, total, status, newTime log⟩]

/-- `SELECT last_processed FROM import_checkpoint WHERE table_name =
'food_nutrients' AND status = 'in_progress' ORDER BY timestamp DESC
LIMIT 1`, returning the whole row.  Rows are appended with strictly
increasing `time`, so the maximum-timestamp row is the last appended
matching row; on (unreachable) ties the later row wins. -/
def latestInProgress (log : List Ckpt) : Option Ckpt :=
  (log.filter (fun c =>
      decide (c.table_name = "food_nutrients" ∧ c.status = "in_progress"))).foldl
    (fun acc c =>
      match acc with
      | none => some c
      | some b => if b.time ≤ c.time then some c else some b)
    none

/-- `nutrients_df.slice(i, min(i + batch_size, total_rows))`: polars
`slice(offset, length)` takes up to `length` rows starting at `offset`.
The source passes `min(i + batch_size, total_rows)` — an offset-like
value — as the length, so batches beyond the first request more rows
than `batch_size`; the embedding reproduces this faithfully. -/
def batchAt (file : List SrcRow) (B i : ℕ) : List SrcRow :=
  (file.drop i).take (min (i + B) file.length)

/-- The batch comprehension: rows with a NULL `amount` are filtered
out, numeric amounts are converted, and a non-null unparsable amount
raises at the first offending row (aborting the whole comprehension). -/
def batchValues : List SrcRow → Except Unit (List ((ℤ × ℤ) × ℚ))
  | [] => .ok []
  | r :: t =>
    match r.amount with
    | Amt.null => batchValues t
    | Amt.num a => (batchValues t).map (fun vs => ((r.fdc_id, r.nutrient_id), a) :: vs)
    | Amt.bad => .error ()

/-- `INSERT OR REPLACE INTO food_nutrients SELECT f.id, t.nutrient_id,
t.amount, 1.0 FROM temp_nutrients t JOIN foods f ON f.fdc_id =
t.fdc_id`: staged rows whose `fdc_id` has no `foods` row are silently
dropped by the inner join. -/
def flushTemp (foods : List Food) (fns : FnMap) (temp : TempMap) : FnMap :=
  temp.foldl
    (fun acc e =>
      match fdcToId foods e.1.1 with
      | some fid => upsertA acc (fid, e.1.2) (e.2, 1)
      | none => acc)
    fns

/-- `INSERT INTO temp_nutrients SELECT f.fdc_id, fn.nutrient_id,
fn.amount FROM food_nutrients fn JOIN foods f ON f.id = fn.food_id`:
on resume, the already-flushed rows are reloaded into the staging
table. -/
def preloadTemp (foods : List Food) (fns : FnMap) : TempMap :=
  fns.foldl
    (fun acc e =>
      match idToFdc foods e.1.1 with
      | some fdc => upsertA acc (fdc, e.1.2) e.2.1
      | none => acc)
    []

/-- The batch loop of `import_nutrient_data` (`for i in
range(start_position, total_rows, batch_size)`).  `fuel` bounds the
number of iterations; the caller passes `total_rows`, which suffices
whenever `batch_size > 0`.  Every `checkpoint_interval`-crossing batch
appends an `in_progress` checkpoint, flushes the staging table into
`food_nutrients`, clears the staging table, and commits (recorded in
`commits`).  A row on which `float` raises propagates the error; the
surrounding handler commits, so the durable state is the one already
recorded in `fns`/`log`. -/
def nutrientImportLoop (file : List SrcRow) (foods : List Food) (B CI : ℕ) :
    ℕ → ℕ → LoopSt → Except LoopSt LoopSt
  | fuel, i, s =>
    if i < file.length then
      match fuel with
      | 0 => .ok s
      | fuel' + 1 =>
        match batchValues (batchAt file B i) with
        | .error _ => .error s
        | .ok vs =>
          let temp' := insertAll s.temp vs
          let processed := i + (batchAt file B i).length
          if processed % CI < B then
            let log' := addCkpt s.log "in_progress" processed file.length
            let fns' := flushTemp foods s.fns temp'
            nutrientImportLoop file foods B CI fuel' (i + B)
              ⟨[], fns', log', s.commits ++ [⟨fns', log'⟩]⟩
          else
            nutrientImportLoop file foods B CI fuel' (i + B)
              ⟨temp', s.fns, s.log, s.commits⟩
    else .ok s

/-- Lines 839–855 of `import_nutrient_data`: look up the most recent
`in_progress` checkpoint; with a positive offset, resume (keeping
`food_nutrients`), otherwise start fresh and `DELETE FROM
food_nutrients`. -/
def resumeStart (st : ImportState) : ℕ × ImportState :=
  match latestInProgress st.log with
  | some c =>
    if 0 < c.last_processed then (c.last_processed, st) else (0, ⟨[], st.log⟩)
  | none => (0, ⟨[], st.log⟩)

/-- `import_nutrient_data`, parametrised by `batch_size` and
`checkpoint_interval`.  Returns the run's outcome (the durable state on
success, the durable state at the error-time commit on failure) and the
list of durable snapshots at the mid-run checkpoint commits. -/
def nutrientDataImportGen (B CI : ℕ) (file : List SrcRow) (foods : List Food)
    (st : ImportState) : Except ImportState ImportState × List ImportState :=
  let p := resumeStart st
  let temp₀ := if 0 < p.1 then preloadTemp foods p.2.fns else []
  match nutrientImportLoop file foods B CI file.length p.1
      ⟨temp₀, p.2.fns, p.2.log, []⟩ with
  | .error s => (.error ⟨s.fns, s.log⟩, s.commits)
  | .ok s =>
    let fns' := flushTemp foods s.fns s.temp
    let log' := addCkpt s.log "completed" file.length file.length
    (.ok ⟨fns', log'⟩, s.commits)

/-- `import_nutrient_data` with the source's constants
`batch_size = 100000` and `checkpoint_interval = 500000`. -/
def nutrientDataImport (file : List SrcRow) (foods : List Food) (st : ImportState) :
    Except ImportState ImportState × List ImportState :=
  nutrientDataImportGen 100000 500000 file foods st

/-- `amount` of a source row if it is numeric. -/
def amtNum : Amt → Option ℚ
  | Amt.num a => some a
  | _ => none

/-- The value of the last row for key `(fdc_id, nutrient_id)` among the
rows of `rows` whose amount is non-null ("last seen wins"). -/
def lastAmount (rows : List SrcRow) (k : ℤ × ℤ) : Option ℚ :=
  lastBy (fun r => if (r.fdc_id, r.nutrient_id) = k then amtNum r.amount else none) rows

/-- The fact file parses cleanly: no non-null, non-numeric amount. -/
def NoBadAmounts (file : List SrcRow) : Prop :=
  ∀ r ∈ file, r.amount ≠ Amt.bad

/-! ## Data model of the ranking & scoring engine

The engine tables (`nutrient_rankings`, `common_nutrients_mv`,
`food_density_scores`) are fully recomputed from `food_nutrients` and
`nutrients`/`foods`, so they are modelled as pure list functions.
SQLite `REAL` arithmetic is modelled exactly over `ℚ`. -/

/-- One row of the `nutrients` dimension table. -/
structure Nutrient : Type where
  id : ℤ
  name : String
  unit : String
deriving DecidableEq

/-- One row of the `food_nutrients` fact table in the engine's view. -/
structure FNRow : Type where
  food_id : ℤ
  nutrient_id : ℤ
  amount : ℚ
  confidence_score : ℚ
deriving DecidableEq

/-- One row of `nutrient_rankings`. -/
structure RankRow : Type where
  food_id : ℤ
  nutrient_id : ℤ
  amount : ℚ
  percentile_rank : ℚ
  z_score : ℚ
deriving DecidableEq

/-- One row of `common_nutrients_mv`. -/
structure MVRow : Type where
  food_id : ℤ
  name : String
  calories : ℚ
  protein : ℚ
  fat : ℚ
  carbohydrates : ℚ
  fiber : ℚ
  sugar : ℚ
  calcium : ℚ
  iron : ℚ
  vitamin_c : ℚ
  vitamin_d : ℚ
  vitamin_b12 : ℚ
  data_completeness : ℚ
deriving DecidableEq

/-- One row of `food_density_scores` (`category_scores` is the
`json_object` of the five component amounts; `last_updated` timestamps
are excluded from the model, as the claims exclude them). -/
structure DensityRow : Type where
  food_id : ℤ
  total_score : ℚ
  nutrient_completeness : ℚ
  calories_per_100g : ℚ
  category_scores : List (String × ℚ)
deriving DecidableEq

/-- The amounts of the `food_nutrients` rows of nutrient `nid` with
`amount > 0` — the ranking partition of `nid` (the SQL window partition
after the `WHERE fn.amount > 0` filter). -/
def posAmounts (fns : List FNRow) (nid : ℤ) : List ℚ :=
  (fns.filter (fun r => decide (r.nutrient_id = nid ∧ 0 < r.amount))).map
    (fun r => r.amount)

/-- SQL `RANK() OVER (ORDER BY amount)`: competition ranking, one plus
the number of partition rows with a strictly smaller amount. -/
def rankIn (l : List ℚ) (a : ℚ) : ℕ :=
  1 + (l.filter (fun x => decide (x < a))).length

/-- `SUM` over a list of rationals. -/
def sumQ (l : List ℚ) : ℚ := l.foldl (· + ·) 0

/-- SQL `AVG(CAST(amount AS FLOAT))`. -/
def meanQ (l : List ℚ) : ℚ := sumQ l / l.length

/-- SQL `MIN(amount)` of a (nonempty) group; 0 on the empty list. -/
def minQ : List ℚ → ℚ
  | [] => 0
  | h :: t => t.foldl min h

/-- SQL `MAX(amount)` of a (nonempty) group; 0 on the empty list. -/
def maxQ : List ℚ → ℚ
  | [] => 0
  | h :: t => t.foldl max h

/-- `calculate_nutrient_rankings`: delete `nutrient_rankings`, then for
every `food_nutrients` row with `amount > 0` insert its competition
percentile rank and min-max-normalised deviation.  Rows with
`amount <= 0` are absent both from the `nutrient_stats` CTE (its
`WHERE amount > 0`) and from the outer `WHERE fn.amount > 0`. -/
def calculate_nutrient_rankings (fns : List FNRow) : List RankRow :=
  (fns.filter (fun r => decide (0 < r.amount))).map
    (fun r =>
      let part := posAmounts fns r.nutrient_id
      { food_id := r.food_id
        nutrient_id := r.nutrient_id
        amount := r.amount
        percentile_rank := (rankIn part r.amount : ℚ) * 100 / (part.length : ℚ)
        z_score :=
          if maxQ part = minQ part then 0
          else (r.amount - meanQ part) / (maxQ part - minQ part) })

/-- ASCII lowercasing of a character list (Python `str.lower` and
SQLite's case-insensitive `LIKE` both fold ASCII letters; the data is
ASCII except for 'häagen', whose 'ä' neither folds). -/
def lowerChars (l : List Char) : List Char := l.map Char.toLower

/-- `needle` is a prefix of `hay`. -/
def listStartsWith : List Char → List Char → Bool
  | [], _ => true
  | _ :: _, [] => false
  | a :: as, b :: bs => a = b && listStartsWith as bs

/-- `needle` occurs as a contiguous substring of `hay` (Python's
`needle in hay` on strings). -/
def listHasInfix (needle : List Char) : List Char → Bool
  | [] => listStartsWith needle []
  | b :: bs => listStartsWith needle (b :: bs) || listHasInfix needle bs

/-- SQLite `name LIKE '%needle%'` (case-insensitive for ASCII). -/
def likeContains (needle hay : String) : Bool :=
  listHasInfix (lowerChars needle.data) (lowerChars hay.data)

/-- `LEFT JOIN nutrients n ON fn.nutrient_id = n.id` for a single fact
row (`id` is the primary key). -/
def nutrientName (nuts : List Nutrient) (nid : ℤ) : Option String :=
  (nuts.find? (fun n => decide (n.id = nid))).map (fun n => n.name)

/-- `COALESCE(MAX(CASE WHEN n.name LIKE '%needle%' THEN fn.amount END), 0)`
over the joined rows of one food: fact rows whose nutrient is missing
from `nutrients` join to a NULL name and contribute nothing. -/
def headlineAmt (nuts : List Nutrient) (rows : List FNRow) (needle : String) : ℚ :=
  maxQ (rows.filterMap (fun r =>
    match nutrientName nuts r.nutrient_id with
    | some nm => if likeContains needle nm then some r.amount else none
    | none => none))

/-- The `common_nutrients_mv` row of one food: the `GROUP BY f.id`
group of the `foods LEFT JOIN food_nutrients LEFT JOIN nutrients`
query.  `COUNT(*)` counts the joined rows, which is `1` (the single
NULL-extended row) when the food has no `food_nutrients` rows. -/
def mvRowFor (nuts : List Nutrient) (fns : List FNRow) (f : Food) : MVRow :=
  let rows := fns.filter (fun r => decide (r.food_id = f.id))
  let cnt : ℕ := if rows.isEmpty then 1 else rows.length
  { food_id := f.id
    name := f.name
    calories := headlineAmt nuts rows "Energy"
    protein := headlineAmt nuts rows "Protein"
    fat := headlineAmt nuts rows "Total lipid"
    carbohydrates := headlineAmt nuts rows "Carbohydrate"
    fiber := headlineAmt nuts rows "Fiber"
    sugar := headlineAmt nuts rows "Sugars"
    calcium := headlineAmt nuts rows "Calcium"
    iron := headlineAmt nuts rows "Iron"
    vitamin_c := headlineAmt nuts rows "Vitamin C"
    vitamin_d := headlineAmt nuts rows "Vitamin D"
    vitamin_b12 := headlineAmt nuts rows "Vitamin B-12"
    data_completeness := if 10 ≤ cnt then 1 else (cnt : ℚ) / 10 }

/-- `update_common_nutrients_mv`: delete `common_nutrients_mv`, then
insert one row per food from the grouped left join. -/
def update_common_nutrients_mv (foods : List Food) (nuts : List Nutrient)
    (fns : List FNRow) : List MVRow :=
  foods.map (mvRowFor nuts fns)

/-- `CASE WHEN x > 0 THEN 1 ELSE 0 END`. -/
def indQ (x : ℚ) : ℚ := if 0 < x then 1 else 0

/-- The `food_density_scores` row computed from one
`common_nutrients_mv` row.  The MV writer always stores non-NULL
(coalesced) values, so the `COALESCE(cn.c, 0)` wrappers of the source
are identities here. -/
def densityRowFor (cn : MVRow) : DensityRow :=
  { food_id := cn.food_id
    total_score :=
      (cn.protein / 50 + cn.fiber / 25 + cn.vitamin_c / 90 + cn.iron / 18 +
        cn.calcium / 1000) / 5 * 100
    nutrient_completeness :=
      (indQ cn.protein + indQ cn.fiber + indQ cn.vitamin_c + indQ cn.iron +
        indQ cn.calcium) / 5
    calories_per_100g := cn.calories
    category_scores :=
      [("protein", cn.protein), ("fiber", cn.fiber), ("vitamin_c", cn.vitamin_c),
        ("iron", cn.iron), ("calcium", cn.calcium)] }

/-- `calculate_density_scores`: delete `food_density_scores`, then
insert one row per `common_nutrients_mv` row. -/
def calculate_density_scores (mv : List MVRow) : List DensityRow :=
  mv.map densityRowFor

/-- The database state seen by the ranking & scoring engine. -/
structure DB : Type where
  foods : List Food
  nutrients : List Nutrient
  fns : List FNRow
  rankings : List RankRow
  mv : List MVRow
  density : List DensityRow
deriving DecidableEq

/-- `update_rankings_and_scores`: the engine's one transaction, running
its passes in the source's order — `calculate_nutrient_rankings`, then
`calculate_density_scores`, then `update_common_nutrients_mv` (the
read-only `verify_data_integrity` call and the unused timestamp local
are omitted). -/
def update_rankings_and_scores (db : DB) : DB :=
  let db₁ := { db with rankings := calculate_nutrient_rankings db.fns }
  let db₂ := { db₁ with density := calculate_density_scores db₁.mv }
  { db₂ with mv := update_common_nutrients_mv db₂.foods db₂.nutrients db₂.fns }

/-! ## The category classifier

`_standardize_category_name`, the static synonym/brand configuration of
`import_foundation_foods`, and `find_category_id`.  Python dicts are
modelled as association lists with insert-or-update preserving the
position of an existing key (Python dicts preserve insertion order and
keep a key's position on value update). -/

/-- `c` is in `[a-z0-9]`. -/
def isLowerAlnum (c : Char) : Bool :=
  ('a' ≤ c && c ≤ 'z') || ('0' ≤ c && c ≤ '9')

/-- ASCII whitespace recognised by Python's `str.split`/`str.strip`. -/
def isWSChar (c : Char) : Bool :=
  c = ' ' || c = '\t' || c = '\n' || c = '\x0d' || c = '\x0b' || c = '\x0c'

/-- Split a character list at the characters satisfying `p`, dropping
empty runs (Python `str.split()` semantics); `cur` is the current run,
accumulated in reverse. -/
def splitRunsAux (p : Char → Bool) (cur : List Char) :
    List Char → List (List Char)
  | [] => if cur.isEmpty then [] else [cur.reverse]
  | c :: cs =>
    if p c then
      if cur.isEmpty then splitRunsAux p [] cs
      else cur.reverse :: splitRunsAux p [] cs
    else splitRunsAux p (c :: cur) cs

/-- The maximal runs of characters not satisfying `p`. -/
def splitRuns (p : Char → Bool) (l : List Char) : List (List Char) :=
  splitRunsAux p [] l

/-- Join words with single spaces (`' '.join`). -/
def joinWords : List (List Char) → List Char
  | [] => []
  | [w] => w
  | w :: ws => w ++ ' ' :: joinWords ws

/-- `_standardize_category_name`: falsy input gives `""`; otherwise
lowercase, replace every character outside `[a-z0-9\s]` by a space, and
re-join the whitespace-split words with single spaces.  (Replacing all
non-alphanumerics — whitespace included — by `' '` before splitting is
extensionally the same as the source's keep-whitespace-then-`split()`.) -/
def standardizeName (s : String) : String :=
  if s = "" then ""
  else
    let cleaned : List Char :=
      s.data.map (fun c =>
        let lc := c.toLower
        if isLowerAlnum lc then lc else ' ')
    String.mk (joinWords (splitRuns (fun c => c = ' ') cleaned))

/-- Python `str.strip()`. -/
def stripWS (s : String) : String :=
  String.mk (((s.data.dropWhile isWSChar).reverse.dropWhile isWSChar).reverse)

/-- Python `str.isdigit()` (restricted to ASCII): nonempty and all
decimal digits. -/
def strIsDigit (s : String) : Bool :=
  s ≠ "" && s.data.all (fun c => '0' ≤ c && c ≤ '9')

/-- Python `int(...)` on a digit string. -/
def strToNat (s : String) : ℕ :=
  s.data.foldl (fun n c => 10 * n + (c.toNat - '0'.toNat)) 0

/-- Python `str.split()` (split on whitespace runs, dropping empties). -/
def splitWords (s : String) : List String :=
  (splitRuns isWSChar s.data).map String.mk

/-- Insert-or-update on a Python dict: updating an existing key keeps
its position, a new key is appended. -/
def dictInsert (m : List (String × ℕ)) (k : String) (v : ℕ) : List (String × ℕ) :=
  if m.any (fun p => decide (p.1 = k)) then
    m.map (fun p => if p.1 = k then (p.1, v) else p)
  else m ++ [(k, v)]

/-- Python `dict.get` / `in` (dict keys are unique, so `find?` is the
lookup). -/
def dictGet (m : List (String × ℕ)) (k : String) : Option ℕ :=
  (m.find? (fun p => decide (p.1 = k))).map (fun p => p.2)

/-- The `category_variations` table of `import_foundation_foods`. -/
def categoryVariations : List (String × List String) :=
  [("beverages",
    ["drink", "juice", "soda", "coffee", "tea", "beverage", "smoothie",
     "lemonade", "water", "cola", "energy drink"]),
   ("dairy and egg products",
    ["milk", "cheese", "yogurt", "dairy", "ice cream", "frozen yogurt",
     "cream", "butter", "egg", "custard", "pudding", "whey"]),
   ("snacks",
    ["chips", "crackers", "popcorn", "pretzels", "snack", "granola bar",
     "energy bar", "trail mix", "peanuts", "seeds", "nuts", "crisps",
     "tortilla chips", "potato chips", "corn chips", "mixed nuts"]),
   ("baked products",
    ["bread", "cake", "cookie", "pastry", "baked", "muffin", "roll", "bun",
     "bagel", "croissant", "donut", "pie", "brownie", "biscuit", "scone"]),
   ("cereal grains and pasta",
    ["cereal", "grain", "pasta", "rice", "wheat", "oat", "quinoa", "barley",
     "noodle", "macaroni", "spaghetti", "couscous", "ramen"]),
   ("fast foods",
    ["restaurant", "takeout", "fast-food", "drive-thru", "burger", "pizza",
     "sandwich", "fries", "taco", "burrito"]),
   ("vegetables and vegetable products",
    ["vegetable", "veggies", "veg", "pickle", "olive", "pepper", "relish",
     "salad", "lettuce", "tomato", "carrot", "potato", "onion", "garlic",
     "broccoli", "spinach", "cucumber", "celery", "mushroom"]),
   ("fruits and fruit juices",
    ["fruit", "fruits", "apple", "orange", "banana", "berry", "grape",
     "citrus", "peach", "pear", "plum", "mango", "pineapple", "melon"]),
   ("spices and herbs",
    ["spice", "herb", "seasoning", "salt", "marinade", "tenderizer",
     "pepper", "garlic", "oregano", "basil", "thyme", "cinnamon",
     "nutmeg", "paprika", "cumin", "curry"]),
   ("soups, sauces, and gravies",
    ["soup", "sauce", "gravy", "dip", "salsa", "ketchup", "mustard",
     "bbq", "mayonnaise", "dressing", "broth", "stock", "chowder",
     "stew", "bouillon"]),
   ("sweets",
    ["candy", "chocolate", "sweet", "dessert", "sugar", "syrup",
     "honey", "jam", "jelly", "marshmallow", "caramel", "fudge",
     "taffy", "gummy", "licorice", "lollipop", "toffee"])]

/-- The `brand_categories` table of `import_foundation_foods`. -/
def brandCategories : List (String × List String) :=
  [("snacks",
    ["doritos", "lays", "pringles", "cheetos", "ritz", "nabisco", "sunchips",
     "tostitos", "fritos", "planters", "chex mix", "combos"]),
   ("beverages",
    ["coca-cola", "coke", "pepsi", "sprite", "fanta", "gatorade", "snapple",
     "mountain dew", "dr pepper", "7up", "schweppes", "red bull", "monster"]),
   ("sweets",
    ["hershey", "mars", "nestle", "cadbury", "twix", "snickers", "milky way",
     "kitkat", "reeses", "butterfinger", "skittles", "starburst"]),
   ("dairy and egg products",
    ["dannon", "yoplait", "breyers", "häagen", "haagen", "ben jerry",
     "chobani", "kraft", "philadelphia", "sargento", "velveeta"])]

/-- `category_variations` after each `brand_categories` list has been
appended to its category's variation list. -/
def mergedVariations : List (String × List String) :=
  categoryVariations.map (fun p =>
    (p.1, p.2 ++ ((brandCategories.filter (fun q => decide (q.1 = p.1))).map
      (fun q => q.2)).flatten))

/-- `_build_category_mappings`: `{name.lower(): id}` over the
`food_categories` rows, in table order. -/
def categoryNameToId (cats : List (ℕ × String)) : List (String × ℕ) :=
  cats.foldl
    (fun m c => dictInsert m (String.mk (lowerChars c.2.data)) c.1) []

/-- The `category_name_map` of `import_foundation_foods`: standardized
base category names first, then for each category whose (truthy) id is
found, its merged variation list. -/
def buildCategoryNameMap (cats : List (ℕ × String)) : List (String × ℕ) :=
  let base :=
    (categoryNameToId cats).foldl
      (fun m p => dictInsert m (standardizeName p.1) p.2) []
  mergedVariations.foldl
    (fun m bc =>
      match dictGet m (standardizeName bc.1) with
      | some bid =>
        if bid = 0 then m
        else bc.2.foldl (fun m' v => dictInsert m' (standardizeName v) bid) m
      | none => m)
    base

/-- The match method returned by `find_category_id` (the source encodes
it as a string such as `"name_match:cheese"`; the matched term is kept
as the constructor argument). -/
inductive MatchMethod : Type where
  | direct_id : MatchMethod
  | exact_match : MatchMethod
  | name_match : String → MatchMethod
  | multi_word_match : String → MatchMethod
  | default_cat : MatchMethod
deriving DecidableEq

/-- Step 5 of `find_category_id`: first category (in
`category_variations` order, truthy id) owning a variation all of whose
whitespace-separated words occur among the food-name words. -/
def multiWordScan (m : List (String × ℕ)) (foodWords : List String) :
    Option (ℕ × String) :=
  mergedVariations.findSome? (fun bc =>
    match dictGet m (standardizeName bc.1) with
    | some bid =>
      if bid = 0 then none
      else
        (bc.2.find? (fun v =>
          (splitWords v).all (fun w => foodWords.contains w))).map
          (fun v => (bid, v))
    | none => none)

/-- `find_category_id(food_name, category_name)` of
`import_foundation_foods`, for a given `food_categories` table and
default category id.  Priority: numeric id, exact standardized-name
match, first synonym term occurring as a substring of the standardized
food name, multi-word variation match, default. -/
def find_category_id (cats : List (ℕ × String)) (defaultId : ℕ)
    (food_name category_name : String) : ℕ × MatchMethod :=
  if strIsDigit category_name && (cats.map (fun c => c.1)).contains (strToNat category_name) then
    (strToNat category_name, MatchMethod.direct_id)
  else
    let stdCategory := standardizeName category_name
    let stdFood := standardizeName food_name
    let m := buildCategoryNameMap cats
    match dictGet m stdCategory with
    | some cid => (cid, MatchMethod.exact_match)
    | none =>
      match m.find? (fun p => listHasInfix p.1.data stdFood.data) with
      | some p => (p.2, MatchMethod.name_match p.1)
      | none =>
        match multiWordScan m (splitWords stdFood) with
        | some r => (r.1, MatchMethod.multi_word_match r.2)
        | none => (defaultId, MatchMethod.default_cat)

/-- One record of `food.csv` as seen by `import_foundation_foods`
(`None` models SQL NULL / Python `None`). -/
structure FoodSrcRow : Type where
  fdc_id : Option ℤ
  description : Option String
  food_category_id : Option String
deriving DecidableEq

/-- `row['food_category_id'].strip() if row['food_category_id'] else ''`. -/
def categoryNameOf (row : FoodSrcRow) : String :=
  match row.food_category_id with
  | some s => if s = "" then "" else stripWS s
  | none => ""

/-- The row loop of `import_foundation_foods`: classify and upsert each
food (keyed by the UNIQUE `fdc_id`); any per-row failure — here a NULL
`fdc_id` or NULL `description`, which violate the `NOT NULL`
constraints of `foods` — is re-raised and aborts the whole import. -/
def foundationFoodsRows (cats : List (ℕ × String)) (defaultId : ℕ) :
    List FoodSrcRow → List (ℤ × (String × ℕ)) →
      Except Unit (List (ℤ × (String × ℕ)))
  | [], acc => .ok acc
  | row :: t, acc =>
    match row.fdc_id, row.description with
    | some fdc, some desc =>
      foundationFoodsRows cats defaultId t
        (upsertA acc fdc
          (desc, (find_category_id cats defaultId desc (categoryNameOf row)).1))
    | _, _ => .error ()

/-- `import_foundation_foods` restricted to its row loop (the surviving
observable is the upserted `foods` content keyed by `fdc_id`; surrogate
ids and the statistics logging are immaterial to the claims). -/
def foundationFoodsImport (cats : List (ℕ × String)) (defaultId : ℕ)
    (rows : List FoodSrcRow) : Except Unit (List (ℤ × (String × ℕ))) :=
  foundationFoodsRows cats defaultId rows []

/-! ## Shared helper lemmas for the engine claims -/

theorem length_filter_le_of_imp {α : Type} (l : List α) (p q : α → Bool)
    (h : ∀ x ∈ l, p x → q x) : (l.filter p).length ≤ (l.filter q).length := by
  induction l with
  | nil => simp
  | cons a t ih =>
    have ih' := ih (fun x hx => h x (List.mem_cons_of_mem _ hx))
    by_cases hp : p a
    · rw [List.filter_cons_of_pos hp, List.filter_cons_of_pos (h a (List.mem_cons_self _ _) hp)]
      simpa using ih'
    · rw [List.filter_cons_of_neg hp]
      by_cases hq : q a
      · rw [List.filter_cons_of_pos hq]
        exact le_trans ih' (by simp)
      · rw [List.filter_cons_of_neg hq]
        exact ih'

theorem countP_eq_one_of_nodup_map {α β : Type} [DecidableEq β] (l : List α) (g : α → β)
    (h : (l.map g).Nodup) (x : α) (hx : x ∈ l) :
    l.countP (fun y => decide (g y = g x)) = 1 := by
  induction l with
  | nil => cases hx
  | cons a t ih =>
    simp only [List.map_cons, List.nodup_cons] at h
    rw [List.countP_cons]
    rcases List.mem_cons.1 hx with he | hx'
    · subst he
      have ht : t.countP (fun y => decide (g y = g x)) = 0 := by
        apply List.countP_eq_zero.2
        intro y hy
        simp only [decide_eq_true_eq]
        intro hgy
        exact h.1 (hgy ▸ List.mem_map_of_mem g hy)
      rw [ht]
      simp
    · have ha : ¬(g a = g x) := by
        intro hga
        exact h.1 (hga ▸ List.mem_map_of_mem g hx')
      rw [ih h.2 hx']
      simp [ha]

/-! ## C3: order of the engine's passes -/

/-- A representative fresh-rebuild state: `import_foundation_foods` has
just loaded one food and cleared all derived tables, and the fact
importer has loaded one positive `food_nutrients` row. -/
def dbFreshBuild : DB :=
  { foods := [⟨1, 100, "Spinach"⟩]
    nutrients := [⟨1003, "Protein", "G"⟩]
    fns := [⟨1, 1003, 25, 1⟩]
    rankings := []
    mv := []
    density := [] }

/-- C3: the claim says the engine runs ranking, then the
common-nutrients pass, then density scoring, so that density scores are
a function of the current `food_nutrients`.  The source instead runs
`calculate_density_scores` *before* `update_common_nutrients_mv`: on a
fresh rebuild (where `import_foundation_foods` emptied
`common_nutrients_mv`) the engine leaves `food_density_scores` empty
even though `food_nutrients` is nonempty and a recomputation from the
refreshed `common_nutrients_mv` would be nonempty — the density pass
reads the stale view. -/
theorem c3_density_pass_reads_stale_mv :
    (update_rankings_and_scores dbFreshBuild).density = [] ∧
    (update_rankings_and_scores dbFreshBuild).mv ≠ [] ∧
    calculate_density_scores ((update_rankings_and_scores dbFreshBuild).mv) ≠ [] ∧
    (update_rankings_and_scores dbFreshBuild).density ≠
      calculate_density_scores ((update_rankings_and_scores dbFreshBuild).mv) := by
  refine ⟨rfl, ?_, ?_, ?_⟩ <;> decide

/-! ## C4: idempotence of the engine -/

/-- C4 (counterexample): running the engine twice on unchanged
`food_nutrients` is *not* idempotent from an arbitrary starting state:
starting from a fresh rebuild (stale, empty `common_nutrients_mv`), the
first run computes `food_density_scores` from the stale view and the
second run from the refreshed one, so the two runs' density tables
differ. -/
theorem c4_counterexample_density_not_idempotent :
    (update_rankings_and_scores (update_rankings_and_scores dbFreshBuild)).density ≠
      (update_rankings_and_scores dbFreshBuild).density := by
  decide

/-- C4 (amended): for every database state, consecutive engine runs on
unchanged `food_nutrients` agree on `nutrient_rankings` and
`common_nutrients_mv` from the first run on; `food_density_scores` is
computed from the `common_nutrients_mv` left by the *previous* run, so
the whole state is idempotent only from the second run on (runs two and
three coincide exactly; timestamps are not modelled). -/
theorem c4_engine_idempotent_from_second_run (db : DB) :
    (update_rankings_and_scores (update_rankings_and_scores db)).rankings =
      (update_rankings_and_scores db).rankings ∧
    (update_rankings_and_scores (update_rankings_and_scores db)).mv =
      (update_rankings_and_scores db).mv ∧
    update_rankings_and_scores (update_rankings_and_scores (update_rankings_and_scores db)) =
      update_rankings_and_scores (update_rankings_and_scores db) :=
  ⟨rfl, rfl, rfl⟩

/-! ## C6: the density-score formula -/

/-- The spec's worked example: a `common_nutrients_mv` row with
protein 25, fiber 5, vitamin C 45, iron 9, calcium 500. -/
def mvExampleRow : MVRow :=
  { food_id := 1, name := "Example food", calories := 0, protein := 25, fat := 0,
    carbohydrates := 0, fiber := 5, sugar := 0, calcium := 500, iron := 9,
    vitamin_c := 45, vitamin_d := 0, vitamin_b12 := 0, data_completeness := 1 }

/-- C6: for every food with a `common_nutrients_mv` row,
`calculate_density_scores` writes exactly one `food_density_scores` row;
its `total_score` is `100 * (protein/50 + fiber/25 + vitamin_c/90 +
iron/18 + calcium/1000) / 5` and its `nutrient_completeness` is the
number of the five components that are positive divided by 5.  In
particular the spec's example row yields `total_score = 44` and
`nutrient_completeness = 1`. -/
theorem c6_density_score_formula (mv : List MVRow)
    (hnd : (mv.map MVRow.food_id).Nodup) (cn : MVRow) (hcn : cn ∈ mv) :
    (calculate_density_scores mv).countP
        (fun d => decide (d.food_id = cn.food_id)) = 1 ∧
    (∀ d ∈ calculate_density_scores mv, d.food_id = cn.food_id →
      d.total_score =
        100 * (cn.protein / 50 + cn.fiber / 25 + cn.vitamin_c / 90 +
          cn.iron / 18 + cn.calcium / 1000) / 5 ∧
      d.nutrient_completeness =
        (([cn.protein, cn.fiber, cn.vitamin_c, cn.iron, cn.calcium].countP
            (fun x => decide (0 < x)) : ℕ) : ℚ) / 5) ∧
    (calculate_density_scores [mvExampleRow]).map
        (fun d => (d.total_score, d.nutrient_completeness)) = [(44, 1)] := by
  refine ⟨?_, ?_, by norm_num [calculate_density_scores, densityRowFor, mvExampleRow, indQ]⟩
  · unfold calculate_density_scores
    rw [List.countP_map]
    exact countP_eq_one_of_nodup_map mv MVRow.food_id hnd cn hcn
  · intro d hd hdf
    obtain ⟨r, hr, hrd⟩ := List.mem_map.1 hd
    have hrid : r.food_id = cn.food_id := by
      rw [← hdf, ← hrd]
      rfl
    have hrcn : r = cn := List.inj_on_of_nodup_map hnd hr hcn hrid
    subst hrcn
    subst hrd
    constructor
    · show (r.protein / 50 + r.fiber / 25 + r.vitamin_c / 90 + r.iron / 18 +
        r.calcium / 1000) / 5 * 100 = _
      ring
    · show (indQ r.protein + indQ r.fiber + indQ r.vitamin_c + indQ r.iron +
        indQ r.calcium) / 5 = _
      rw [List.countP_cons, List.countP_cons, List.countP_cons, List.countP_cons,
        List.countP_cons, List.countP_nil]
      unfold indQ
      by_cases h1 : 0 < r.protein <;> by_cases h2 : 0 < r.fiber <;>
        by_cases h3 : 0 < r.vitamin_c <;> by_cases h4 : 0 < r.iron <;>
        by_cases h5 : 0 < r.calcium <;>
        simp [h1, h2, h3, h4, h5] <;> norm_num

/-- C6 (witness): the general theorem applied to the spec's example
row. -/
theorem c6_density_score_formula_witness :
    ([mvExampleRow].map MVRow.food_id).Nodup ∧ mvExampleRow ∈ [mvExampleRow] ∧
    ((calculate_density_scores [mvExampleRow]).countP
        (fun d => decide (d.food_id = mvExampleRow.food_id)) = 1 ∧
    (∀ d ∈ calculate_density_scores [mvExampleRow], d.food_id = mvExampleRow.food_id →
      d.total_score =
        100 * (mvExampleRow.protein / 50 + mvExampleRow.fiber / 25 +
          mvExampleRow.vitamin_c / 90 + mvExampleRow.iron / 18 +
          mvExampleRow.calcium / 1000) / 5 ∧
      d.nutrient_completeness =
        (([mvExampleRow.protein, mvExampleRow.fiber, mvExampleRow.vitamin_c,
            mvExampleRow.iron, mvExampleRow.calcium].countP
            (fun x => decide (0 < x)) : ℕ) : ℚ) / 5) ∧
    (calculate_density_scores [mvExampleRow]).map
        (fun d => (d.total_score, d.nutrient_completeness)) = [(44, 1)]) :=
  ⟨List.nodup_singleton _, List.mem_singleton.2 rfl,
    c6_density_score_formula [mvExampleRow] (List.nodup_singleton _) mvExampleRow
      (List.mem_singleton.2 rfl)⟩

/-! ## C7: one `common_nutrients_mv` row per food and `data_completeness` -/

/-- A food with no `food_nutrients` rows. -/
def foodMystery : Food := ⟨1, 100, "Mystery food"⟩

/-- C7 (counterexample): a food with zero recorded nutrients gets
`data_completeness = 1/10`, not `min(0/10, 1) = 0`: the source computes
`COUNT(*)` over the left join, which is 1 (the NULL-extended row) for a
food with no `food_nutrients` rows. -/
theorem c7_counterexample_zero_nutrients :
    (update_common_nutrients_mv [foodMystery] [] []).map
        (fun r => r.data_completeness) = [1/10] ∧
    ((1 : ℚ)/10) ≠ min ((0 : ℚ)/10) 1 := by
  constructor
  · show [(mvRowFor [] [] foodMystery).data_completeness] = [1/10]
    norm_num [mvRowFor]
  · norm_num

/-- `COUNT(DISTINCT nutrient_id)` of one food's `food_nutrients` rows. -/
def distinctNutrientCount (fns : List FNRow) (fid : ℤ) : ℕ :=
  (((fns.filter (fun r => decide (r.food_id = fid))).map
    (fun r => r.nutrient_id)).dedup).length

/-- C7 (amended): after `update_common_nutrients_mv` every food —
including one with no `food_nutrients` rows — has exactly one
`common_nutrients_mv` row, and its `data_completeness` equals
`min(max(n, 1)/10, 1)` where `n` is the number of distinct nutrients
recorded for the food; in particular a food with no recorded nutrients
gets `1/10`, not `0`. -/
theorem c7_amended_data_completeness (foods : List Food) (nuts : List Nutrient)
    (fns : List FNRow) (hfoods : (foods.map Food.id).Nodup)
    (hkeys : (fns.map (fun r => (r.food_id, r.nutrient_id))).Nodup) :
    (update_common_nutrients_mv foods nuts fns).map MVRow.food_id = foods.map Food.id ∧
    (∀ f ∈ foods, (update_common_nutrients_mv foods nuts fns).countP
        (fun r => decide (r.food_id = f.id)) = 1) ∧
    ∀ f ∈ foods, ∀ r ∈ update_common_nutrients_mv foods nuts fns, r.food_id = f.id →
      r.data_completeness =
        min (((max (distinctNutrientCount fns f.id) 1 : ℕ) : ℚ) / 10) 1 := by
  refine ⟨?_, ?_, ?_⟩
  · rw [update_common_nutrients_mv, List.map_map]
    rfl
  · intro f hf
    rw [update_common_nutrients_mv, List.countP_map]
    exact countP_eq_one_of_nodup_map foods Food.id hfoods f hf
  · intro f hf r hr hrf
    obtain ⟨f', hf', hfr⟩ := List.mem_map.1 hr
    have hid : f'.id = f.id := by
      rw [← hrf, ← hfr]
      rfl
    have hff : f' = f := List.inj_on_of_nodup_map hfoods hf' hf hid
    subst hff
    subst hfr
    have hrows : (fns.filter (fun x => decide (x.food_id = f'.id))).map
        (fun x => (x.food_id, x.nutrient_id)) |>.Nodup :=
      hkeys.sublist ((List.filter_sublist fns).map _)
    have hnodup : ((fns.filter (fun x => decide (x.food_id = f'.id))).map
        (fun x => x.nutrient_id)).Nodup := by
      apply List.Nodup.map_on ?_ ((List.filter_sublist fns).nodup (List.Nodup.of_map _ hkeys))
      intro x hx y hy hxy
      have hxf : x.food_id = f'.id := by simpa using (List.mem_filter.1 hx).2
      have hyf : y.food_id = f'.id := by simpa using (List.mem_filter.1 hy).2
      exact List.inj_on_of_nodup_map hrows hx hy (by rw [hxf, hyf, hxy])
    have hcount : distinctNutrientCount fns f'.id =
        (fns.filter (fun x => decide (x.food_id = f'.id))).length := by
      rw [distinctNutrientCount, List.dedup_eq_self.2 hnodup, List.length_map]
    show (if 10 ≤ (if (fns.filter (fun x => decide (x.food_id = f'.id))).isEmpty then 1
        else (fns.filter (fun x => decide (x.food_id = f'.id))).length) then (1 : ℚ)
      else _) = _
    rw [hcount]
    by_cases hemp : (fns.filter (fun x => decide (x.food_id = f'.id))).isEmpty
    · have h0 : (fns.filter (fun x => decide (x.food_id = f'.id))).length = 0 := by
        rw [List.isEmpty_iff] at hemp
        rw [hemp]
        rfl
      rw [if_pos hemp, h0]
      norm_num
    · have h1 : 1 ≤ (fns.filter (fun x => decide (x.food_id = f'.id))).length := by
        rcases Nat.eq_zero_or_pos (fns.filter (fun x => decide (x.food_id = f'.id))).length
          with h | h
        · exact absurd (List.isEmpty_iff.2 (List.length_eq_zero.1 h)) hemp
        · exact h
      rw [if_neg hemp, Nat.max_eq_left h1]
      set n := (fns.filter (fun x => decide (x.food_id = f'.id))).length with hn
      by_cases h10 : 10 ≤ n
      · rw [if_pos h10, min_eq_right]
        rw [le_div_iff₀ (by norm_num : (0:ℚ) < 10)]
        calc (1:ℚ) * 10 = 10 := by norm_num
        _ ≤ (n : ℚ) := by exact_mod_cast h10
      · rw [if_neg h10, min_eq_left]
        rw [div_le_one (by norm_num : (0:ℚ) < 10)]
        have : n ≤ 10 := le_of_not_le (fun hh => h10 (le_trans (by norm_num) hh))
        exact_mod_cast this

/-- C7 (witness): the amended theorem applied to a single food with no
recorded nutrients. -/
theorem c7_amended_data_completeness_witness :
    ([foodMystery].map Food.id).Nodup ∧
    (([] : List FNRow).map (fun r => (r.food_id, r.nutrient_id))).Nodup ∧
    ((update_common_nutrients_mv [foodMystery] [] []).map MVRow.food_id =
        [foodMystery].map Food.id ∧
    (∀ f ∈ [foodMystery], (update_common_nutrients_mv [foodMystery] [] []).countP
        (fun r => decide (r.food_id = f.id)) = 1) ∧
    ∀ f ∈ [foodMystery], ∀ r ∈ update_common_nutrients_mv [foodMystery] [] [],
      r.food_id = f.id →
      r.data_completeness =
        min (((max (distinctNutrientCount [] f.id) 1 : ℕ) : ℚ) / 10) 1) :=
  ⟨List.nodup_singleton _, List.nodup_nil,
    c7_amended_data_completeness [foodMystery] [] [] (List.nodup_singleton _) List.nodup_nil⟩

/-! ## C9: classifier on "Cheddar Cheese" -/

/-- A `food_categories` table with the standard USDA category names, in
table order (the dairy-and-egg-products category has id 1). -/
def usdaCats : List (ℕ × String) :=
  [(1, "Dairy and Egg Products"), (2, "Spices and Herbs"), (4, "Fats and Oils"),
   (6, "Soups, Sauces, and Gravies"), (9, "Fruits and Fruit Juices"),
   (11, "Vegetables and Vegetable Products"), (14, "Beverages"),
   (18, "Baked Products"), (19, "Sweets"), (20, "Cereal Grains and Pasta"),
   (21, "Fast Foods"), (23, "Snacks")]

set_option maxRecDepth 40000 in
/-- C9: with the built-in synonym configuration (whose
"dairy and egg products" variant list contains "cheese"),
`find_category_id("Cheddar Cheese", "")` falls through the numeric and
exact-match steps and returns the dairy-and-egg-products id via step 4:
"cheese" is the first synonym term in the map that occurs as a
substring of the normalized food name "cheddar cheese". -/
theorem c9_classifier_cheddar_cheese :
    find_category_id usdaCats 1 "Cheddar Cheese" "" =
      (1, MatchMethod.name_match "cheese") := rfl

/-! ## C5: the `nutrient_rankings` postcondition -/

theorem mem_posAmounts (fns : List FNRow) (r : FNRow) (hr : r ∈ fns)
    (hpos : 0 < r.amount) : r.amount ∈ posAmounts fns r.nutrient_id := by
  unfold posAmounts
  exact List.mem_map_of_mem _ (List.mem_filter.2 ⟨hr, by simp [hpos]⟩)

theorem rankIn_le_length (l : List ℚ) (a : ℚ) (ha : a ∈ l) : rankIn l a ≤ l.length := by
  unfold rankIn
  have : (l.filter (fun x => decide (x < a))).length < l.length :=
    List.length_filter_lt_length_iff_exists.mpr ⟨a, ha, by simp⟩
  omega

/-- C5: `calculate_nutrient_rankings` inserts exactly the
`food_nutrients` rows with positive amount (a row with `amount ≤ 0`
never appears); each inserted row carries
`percentile_rank = rank * 100 / count` (competition rank, ascending by
amount, partitioned by nutrient), which always lies in `(0, 100]` and
is monotone in the amount within a nutrient; and
`z_score = 0` when the partition's max equals its min, else
`(amount - mean) / (max - min)`, all statistics taken over the
partition's positive amounts. -/
theorem c5_nutrient_rankings_postcondition (fns : List FNRow) :
    (∀ rk ∈ calculate_nutrient_rankings fns,
      0 < rk.amount ∧
      (∃ r ∈ fns, r.food_id = rk.food_id ∧ r.nutrient_id = rk.nutrient_id ∧
        r.amount = rk.amount) ∧
      rk.percentile_rank =
        (rankIn (posAmounts fns rk.nutrient_id) rk.amount : ℚ) * 100 /
          ((posAmounts fns rk.nutrient_id).length : ℚ) ∧
      0 < rk.percentile_rank ∧ rk.percentile_rank ≤ 100 ∧
      rk.z_score =
        (if maxQ (posAmounts fns rk.nutrient_id) = minQ (posAmounts fns rk.nutrient_id)
          then 0
          else (rk.amount - meanQ (posAmounts fns rk.nutrient_id)) /
            (maxQ (posAmounts fns rk.nutrient_id) - minQ (posAmounts fns rk.nutrient_id)))) ∧
    (∀ r ∈ fns, 0 < r.amount → ∃ rk ∈ calculate_nutrient_rankings fns,
      rk.food_id = r.food_id ∧ rk.nutrient_id = r.nutrient_id ∧ rk.amount = r.amount) ∧
    (∀ rk₁ ∈ calculate_nutrient_rankings fns, ∀ rk₂ ∈ calculate_nutrient_rankings fns,
      rk₁.nutrient_id = rk₂.nutrient_id → rk₁.amount ≤ rk₂.amount →
      rk₁.percentile_rank ≤ rk₂.percentile_rank) := by
  have hdest : ∀ rk ∈ calculate_nutrient_rankings fns, ∃ r ∈ fns,
      0 < r.amount ∧ rk.food_id = r.food_id ∧ rk.nutrient_id = r.nutrient_id ∧
      rk.amount = r.amount ∧
      rk.percentile_rank =
        (rankIn (posAmounts fns r.nutrient_id) r.amount : ℚ) * 100 /
          ((posAmounts fns r.nutrient_id).length : ℚ) ∧
      rk.z_score =
        (if maxQ (posAmounts fns r.nutrient_id) = minQ (posAmounts fns r.nutrient_id)
          then 0
          else (r.amount - meanQ (posAmounts fns r.nutrient_id)) /
            (maxQ (posAmounts fns r.nutrient_id) - minQ (posAmounts fns r.nutrient_id))) := by
    intro rk hrk
    obtain ⟨r, hr, hrrk⟩ := List.mem_map.1 hrk
    obtain ⟨hrf, hrpos⟩ := List.mem_filter.1 hr
    have hrpos' : 0 < r.amount := by simpa using hrpos
    exact ⟨r, hrf, hrpos', by rw [← hrrk], by rw [← hrrk], by rw [← hrrk],
      by rw [← hrrk], by rw [← hrrk]⟩
  have hbounds : ∀ r ∈ fns, 0 < r.amount →
      0 < (rankIn (posAmounts fns r.nutrient_id) r.amount : ℚ) * 100 /
          ((posAmounts fns r.nutrient_id).length : ℚ) ∧
      (rankIn (posAmounts fns r.nutrient_id) r.amount : ℚ) * 100 /
          ((posAmounts fns r.nutrient_id).length : ℚ) ≤ 100 := by
    intro r hr hpos
    have hmem := mem_posAmounts fns r hr hpos
    have hn : 0 < (posAmounts fns r.nutrient_id).length :=
      List.length_pos.2 (List.ne_nil_of_mem hmem)
    have hk1 : 1 ≤ rankIn (posAmounts fns r.nutrient_id) r.amount := by
      unfold rankIn
      omega
    have hkn := rankIn_le_length (posAmounts fns r.nutrient_id) r.amount hmem
    constructor
    · apply div_pos
      · have : (0:ℚ) < (rankIn (posAmounts fns r.nutrient_id) r.amount : ℚ) := by
          exact_mod_cast Nat.lt_of_lt_of_le Nat.zero_lt_one hk1
        nlinarith
      · exact_mod_cast hn
    · rw [div_le_iff₀ (by exact_mod_cast hn)]
      have hc : (rankIn (posAmounts fns r.nutrient_id) r.amount : ℚ) ≤
          ((posAmounts fns r.nutrient_id).length : ℚ) := by exact_mod_cast hkn
      nlinarith
  refine ⟨?_, ?_, ?_⟩
  · intro rk hrk
    obtain ⟨r, hrf, hrpos, he₁, he₂, he₃, he₄, he₅⟩ := hdest rk hrk
    have hb := hbounds r hrf hrpos
    refine ⟨he₃ ▸ hrpos, ⟨r, hrf, he₁.symm, he₂.symm, he₃.symm⟩, ?_, ?_, ?_, ?_⟩
    · rw [he₄, he₂, he₃]
    · rw [he₄]; exact hb.1
    · rw [he₄]; exact hb.2
    · rw [he₅, he₂, he₃]
  · intro r hr hpos
    refine ⟨_, List.mem_map_of_mem _ (List.mem_filter.2 ⟨hr, by simp [hpos]⟩),
      rfl, rfl, rfl⟩
  · intro rk₁ h₁ rk₂ h₂ hnid hamt
    obtain ⟨r₁, hrf₁, hrpos₁, ha₁, hb₁, hc₁, hd₁, he₁⟩ := hdest rk₁ h₁
    obtain ⟨r₂, hrf₂, hrpos₂, ha₂, hb₂, hc₂, hd₂, he₂⟩ := hdest rk₂ h₂
    have hnid' : r₁.nutrient_id = r₂.nutrient_id := by rw [← hb₁, ← hb₂, hnid]
    have hmem₂ := mem_posAmounts fns r₂ hrf₂ hrpos₂
    have hn : 0 < ((posAmounts fns r₂.nutrient_id).length : ℚ) := by
      exact_mod_cast List.length_pos.2 (List.ne_nil_of_mem hmem₂)
    have hrank : rankIn (posAmounts fns r₂.nutrient_id) r₁.amount ≤
        rankIn (posAmounts fns r₂.nutrient_id) r₂.amount := by
      unfold rankIn
      have := length_filter_le_of_imp (posAmounts fns r₂.nutrient_id)
        (fun x => decide (x < r₁.amount)) (fun x => decide (x < r₂.amount))
        (fun x _ hx => by
          simp only [decide_eq_true_eq] at hx ⊢
          calc x < r₁.amount := hx
          _ = rk₁.amount := hc₁.symm
          _ ≤ rk₂.amount := hamt
          _ = r₂.amount := hc₂)
      omega
    rw [hd₁, hd₂, hnid']
    apply (div_le_div_iff_of_pos_right hn).mpr
    have : (rankIn (posAmounts fns r₂.nutrient_id) r₁.amount : ℚ) ≤
        (rankIn (posAmounts fns r₂.nutrient_id) r₂.amount : ℚ) := by exact_mod_cast hrank
    nlinarith

/-- A three-row fact table for one nutrient: amounts 5, 10 and 0. -/
def fns2C5 : List FNRow := [⟨1, 7, 5, 1⟩, ⟨2, 7, 10, 1⟩, ⟨3, 7, 0, 1⟩]

/-- C5 (witness): the postcondition theorem applied to a concrete fact
table and its positive row `(food 1, nutrient 7, amount 5)`. -/
theorem c5_nutrient_rankings_postcondition_witness :
    (⟨1, 7, 5, 1⟩ : FNRow) ∈ fns2C5 ∧ (0:ℚ) < (⟨1, 7, 5, 1⟩ : FNRow).amount ∧
    (∃ rk ∈ calculate_nutrient_rankings fns2C5,
      rk.food_id = (⟨1, 7, 5, 1⟩ : FNRow).food_id ∧
      rk.nutrient_id = (⟨1, 7, 5, 1⟩ : FNRow).nutrient_id ∧
      rk.amount = (⟨1, 7, 5, 1⟩ : FNRow).amount) :=
  ⟨by decide, by decide,
    (c5_nutrient_rankings_postcondition fns2C5).2.1 ⟨1, 7, 5, 1⟩ (by decide) (by decide)⟩

/-! ## Lemmas about the checkpoint log -/

theorem foldl_max_ge_init (log : List Ckpt) (a : ℕ) :
    a ≤ log.foldl (fun a c => max a c.time) a := by
  induction log generalizing a with
  | nil => exact le_refl a
  | cons c t ih => exact le_trans (le_max_left a c.time) (ih (max a c.time))

theorem mem_le_foldl_max (c : Ckpt) :
    ∀ (log : List Ckpt) (a : ℕ), c ∈ log →
      c.time ≤ log.foldl (fun a c => max a c.time) a := by
  intro log
  induction log with
  | nil => intro a hc; cases hc
  | cons d t ih =>
    intro a hc
    rcases List.mem_cons.1 hc with he | hm
    · subst he
      exact le_trans (le_max_right a c.time) (foldl_max_ge_init t (max a c.time))
    · exact ih (max a d.time) hm

theorem newTime_gt (log : List Ckpt) (c : Ckpt) (hc : c ∈ log) : c.time < newTime log :=
  Nat.lt_succ_of_le (mem_le_foldl_max c log 0 hc)

theorem pick_fold_mem (l : List Ckpt) :
    ∀ acc c, (l.foldl (fun acc c =>
        match acc with
        | none => some c
        | some b => if b.time ≤ c.time then some c else some b) acc = some c) →
      acc = some c ∨ c ∈ l := by
  induction l with
  | nil => exact fun acc c h => Or.inl h
  | cons d t ih =>
    intro acc c h
    rcases ih _ c h with h' | h'
    · cases acc with
      | none =>
        simp only at h'
        injection h' with h''
        exact Or.inr (h'' ▸ List.mem_cons_self _ _)
      | some b =>
        simp only at h'
        by_cases hbd : b.time ≤ d.time
        · rw [if_pos hbd] at h'
          injection h' with h''
          exact Or.inr (h'' ▸ List.mem_cons_self _ _)
        · rw [if_neg hbd] at h'
          exact Or.inl h'
    · exact Or.inr (List.mem_cons_of_mem _ h')

theorem latestInProgress_mem (log : List Ckpt) (c : Ckpt)
    (h : latestInProgress log = some c) :
    c ∈ log ∧ c.table_name = "food_nutrients" ∧ c.status = "in_progress" := by
  unfold latestInProgress at h
  rcases pick_fold_mem _ none c h with h' | h'
  · cases h'
  · have hmem := List.mem_of_mem_filter h'
    have hprop := List.of_mem_filter h'
    simp only [decide_eq_true_eq] at hprop
    exact ⟨hmem, hprop.1, hprop.2⟩

theorem latestInProgress_append_match (log : List Ckpt) (c : Ckpt)
    (hc : c.table_name = "food_nutrients" ∧ c.status = "in_progress")
    (ht : ∀ c' ∈ log, c'.time < c.time) :
    latestInProgress (log ++ [c]) = some c := by
  unfold latestInProgress
  rw [List.filter_append, List.foldl_append]
  have hcfilter : List.filter (fun c =>
      decide (c.table_name = "food_nutrients" ∧ c.status = "in_progress")) [c] = [c] := by
    rw [List.filter_cons_of_pos (by simp [hc.1, hc.2])]
    rfl
  rw [hcfilter]
  cases hacc : (log.filter (fun c =>
      decide (c.table_name = "food_nutrients" ∧ c.status = "in_progress"))).foldl
      (fun acc c =>
        match acc with
        | none => some c
        | some b => if b.time ≤ c.time then some c else some b) none with
  | none => rfl
  | some b =>
    rcases pick_fold_mem _ none b hacc with h' | h'
    · cases h'
    · have hb : b.time < c.time := ht b (List.mem_of_mem_filter h')
      show (if b.time ≤ c.time then some c else some b) = some c
      rw [if_pos (le_of_lt hb)]

theorem latestInProgress_append_nonmatch (log : List Ckpt) (c : Ckpt)
    (hc : ¬(c.table_name = "food_nutrients" ∧ c.status = "in_progress")) :
    latestInProgress (log ++ [c]) = latestInProgress log := by
  unfold latestInProgress
  rw [List.filter_append]
  have : List.filter (fun c =>
      decide (c.table_name = "food_nutrients" ∧ c.status = "in_progress")) [c] = [] := by
    rw [List.filter_cons_of_neg (by simpa using hc)]
    rfl
  rw [this, List.append_nil]

theorem latestInProgress_addCkpt_in_progress (log : List Ckpt) (p N : ℕ) :
    latestInProgress (addCkpt log "in_progress" p N) =
      some ⟨"food_nutrients", p, N, "in_progress", newTime log⟩ := by
  unfold addCkpt
  exact latestInProgress_append_match log _ ⟨rfl, rfl⟩
    (fun c' hc' => newTime_gt log c' hc')

theorem latestInProgress_addCkpt_completed (log : List Ckpt) (p N : ℕ) :
    latestInProgress (addCkpt log "completed" p N) = latestInProgress log := by
  unfold addCkpt
  apply latestInProgress_append_nonmatch
  intro h
  exact absurd (show ("completed" : String) = "in_progress" from h.2) (by decide)

/-! ## Lemmas about batches, the staging table and the flushes -/

/-- The key/value pairs a clean batch contributes, in row order. -/
def batchVals (l : List SrcRow) : List ((ℤ × ℤ) × ℚ) :=
  l.filterMap (fun r => (amtNum r.amount).map (fun a => ((r.fdc_id, r.nutrient_id), a)))

theorem batchValues_cons (r : SrcRow) (t : List SrcRow) :
    batchValues (r :: t) =
      match r.amount with
      | Amt.null => batchValues t
      | Amt.num a => (batchValues t).map (fun vs => ((r.fdc_id, r.nutrient_id), a) :: vs)
      | Amt.bad => .error () := rfl

theorem batchValues_eq_ok (l : List SrcRow) (h : ∀ r ∈ l, r.amount ≠ Amt.bad) :
    batchValues l = .ok (batchVals l) := by
  induction l with
  | nil => rfl
  | cons r t ih =>
    have ht := ih (fun x hx => h x (List.mem_cons_of_mem _ hx))
    rw [batchValues_cons, batchVals, List.filterMap_cons]
    cases hr : r.amount with
    | null =>
      simp only [ht, amtNum, Option.map_none']
      rfl
    | num a =>
      simp only [ht, amtNum, Option.map_some', Except.map]
      rfl
    | bad => exact absurd hr (h r (List.mem_cons_self _ _))

theorem batchValues_error (l : List SrcRow) (h : ∃ r ∈ l, r.amount = Amt.bad) :
    batchValues l = .error () := by
  induction l with
  | nil => obtain ⟨r, hr, _⟩ := h; cases hr
  | cons r t ih =>
    rw [batchValues_cons]
    cases hr : r.amount with
    | bad => rfl
    | null =>
      apply ih
      obtain ⟨x, hx, hxb⟩ := h
      rcases List.mem_cons.1 hx with he | hm
      · rw [he] at hxb; rw [hr] at hxb; cases hxb
      · exact ⟨x, hm, hxb⟩
    | num a =>
      have ht : batchValues t = .error () := by
        apply ih
        obtain ⟨x, hx, hxb⟩ := h
        rcases List.mem_cons.1 hx with he | hm
        · rw [he] at hxb; rw [hr] at hxb; cases hxb
        · exact ⟨x, hm, hxb⟩
      rw [ht]
      rfl

theorem mapLookup_batchVals (l : List SrcRow) (k : ℤ × ℤ) :
    mapLookup (batchVals l) k = lastAmount l k := by
  induction l with
  | nil => rfl
  | cons r t ih =>
    have h2 : lastAmount (r :: t) k =
        oo (lastAmount t k)
          (if (r.fdc_id, r.nutrient_id) = k then amtNum r.amount else none) := by
      rw [lastAmount, lastBy_cons, ← lastAmount]
    rw [h2]
    cases hr : r.amount with
    | null =>
      have h1 : batchVals (r :: t) = batchVals t := by
        rw [batchVals, batchVals, List.filterMap_cons]
        simp only [hr, amtNum, Option.map_none']
      rw [h1, ih]
      by_cases hkey : (r.fdc_id, r.nutrient_id) = k
      · rw [if_pos hkey]; exact (oo_none_right _).symm
      · rw [if_neg hkey]; exact (oo_none_right _).symm
    | num a =>
      have h1 : batchVals (r :: t) = ((r.fdc_id, r.nutrient_id), a) :: batchVals t := by
        rw [batchVals, batchVals, List.filterMap_cons]
        simp only [hr, amtNum, Option.map_some']
      rw [h1, mapLookup_cons, ih]
      rfl
    | bad =>
      have h1 : batchVals (r :: t) = batchVals t := by
        rw [batchVals, batchVals, List.filterMap_cons]
        simp only [hr, amtNum, Option.map_none']
      rw [h1, ih]
      by_cases hkey : (r.fdc_id, r.nutrient_id) = k
      · rw [if_pos hkey]; exact (oo_none_right _).symm
      · rw [if_neg hkey]; exact (oo_none_right _).symm

/-! ## Lemmas about the `foods` joins -/

theorem fdcToId_spec (foods : List Food) (fdc fid : ℤ)
    (h : fdcToId foods fdc = some fid) :
    ∃ f ∈ foods, f.fdc_id = fdc ∧ f.id = fid := by
  unfold fdcToId at h
  obtain ⟨f, hf, hfi⟩ := Option.map_eq_some'.1 h
  refine ⟨f, List.mem_of_find?_eq_some hf, ?_, hfi⟩
  have := List.find?_some hf
  simpa using this

theorem idToFdc_spec (foods : List Food) (fid fdc : ℤ)
    (h : idToFdc foods fid = some fdc) :
    ∃ f ∈ foods, f.id = fid ∧ f.fdc_id = fdc := by
  unfold idToFdc at h
  obtain ⟨f, hf, hfi⟩ := Option.map_eq_some'.1 h
  refine ⟨f, List.mem_of_find?_eq_some hf, ?_, hfi⟩
  have := List.find?_some hf
  simpa using this

theorem fdcToId_inj (foods : List Food) (hid : (foods.map Food.id).Nodup)
    (f₁ f₂ fid : ℤ) (h₁ : fdcToId foods f₁ = some fid)
    (h₂ : fdcToId foods f₂ = some fid) : f₁ = f₂ := by
  obtain ⟨r₁, hr₁, hfdc₁, hid₁⟩ := fdcToId_spec foods f₁ fid h₁
  obtain ⟨r₂, hr₂, hfdc₂, hid₂⟩ := fdcToId_spec foods f₂ fid h₂
  have : r₁ = r₂ :=
    List.inj_on_of_nodup_map hid hr₁ hr₂ (by rw [hid₁, hid₂])
  rw [← hfdc₁, ← hfdc₂, this]

theorem idToFdc_inj (foods : List Food) (hfdc : (foods.map Food.fdc_id).Nodup)
    (fid₁ fid₂ fdc : ℤ) (h₁ : idToFdc foods fid₁ = some fdc)
    (h₂ : idToFdc foods fid₂ = some fdc) : fid₁ = fid₂ := by
  obtain ⟨r₁, hr₁, hid₁, hfdc₁⟩ := idToFdc_spec foods fid₁ fdc h₁
  obtain ⟨r₂, hr₂, hid₂, hfdc₂⟩ := idToFdc_spec foods fid₂ fdc h₂
  have : r₁ = r₂ :=
    List.inj_on_of_nodup_map hfdc hr₁ hr₂ (by rw [hfdc₁, hfdc₂])
  rw [← hid₁, ← hid₂, this]

theorem fdcToId_idToFdc (foods : List Food) (hid : (foods.map Food.id).Nodup)
    (fdc fid : ℤ) (h : fdcToId foods fdc = some fid) :
    idToFdc foods fid = some fdc := by
  obtain ⟨r, hr, hfdc, hrid⟩ := fdcToId_spec foods fdc fid h
  have hsome : (foods.find? (fun f => decide (f.id = fid))).isSome :=
    List.find?_isSome.mpr ⟨r, hr, by simp [hrid]⟩
  obtain ⟨r', hr'⟩ := Option.isSome_iff_exists.1 hsome
  have hr'id : r'.id = fid := by
    have := List.find?_some hr'
    simpa using this
  have : r' = r :=
    List.inj_on_of_nodup_map hid (List.mem_of_find?_eq_some hr') hr
      (by rw [hr'id, hrid])
  unfold idToFdc
  rw [hr', this]
  simp [hfdc]

/-! ## The flush and the resume preload -/

/-- The permanent table after a flush has `Nodup` keys. -/
theorem flushTemp_keys_nodup (foods : List Food) :
    ∀ (temp : TempMap) (fns : FnMap), ((fns.map Prod.fst).Nodup) →
      ((flushTemp foods fns temp).map Prod.fst).Nodup := by
  intro temp
  induction temp with
  | nil => exact fun fns h => h
  | cons e t ih =>
    intro fns h
    show ((flushTemp foods _ t).map Prod.fst).Nodup
    cases hres : fdcToId foods e.1.1 with
    | none =>
      simp only [flushTemp, List.foldl_cons, hres]
      exact ih fns h
    | some fid =>
      simp only [flushTemp, List.foldl_cons, hres]
      exact ih _ (keys_upsertA_nodup _ _ _ h)

/-- Every row the fact importer ever writes to `food_nutrients` has a
resolvable `food_id` and `confidence_score = 1`. -/
def Resolvable (foods : List Food) (fns : FnMap) : Prop :=
  ∀ p ∈ fns, (∃ fdc, fdcToId foods fdc = some p.1.1) ∧ p.2.2 = 1

theorem flushTemp_resolvable (foods : List Food) :
    ∀ (temp : TempMap) (fns : FnMap), Resolvable foods fns →
      Resolvable foods (flushTemp foods fns temp) := by
  intro temp
  induction temp with
  | nil => exact fun fns h => h
  | cons e t ih =>
    intro fns h
    cases hres : fdcToId foods e.1.1 with
    | none =>
      show Resolvable foods (flushTemp foods _ t)
      simp only [flushTemp, List.foldl_cons, hres]
      exact ih fns h
    | some fid =>
      show Resolvable foods (flushTemp foods _ t)
      simp only [flushTemp, List.foldl_cons, hres]
      apply ih
      intro p hp
      rcases mem_upsertA hp with he | hm
      · subst he
        exact ⟨⟨e.1.1, hres⟩, rfl⟩
      · exact h p hm

theorem flushTemp_lookup (foods : List Food) (hid : (foods.map Food.id).Nodup)
    (fdc fid nid : ℤ) (hfid : fdcToId foods fdc = some fid) :
    ∀ (temp : TempMap) (fns : FnMap),
      mapLookup (flushTemp foods fns temp) (fid, nid) =
        oo ((mapLookup temp (fdc, nid)).map (fun a => (a, (1 : ℚ))))
          (mapLookup fns (fid, nid)) := by
  intro temp
  induction temp with
  | nil => intro fns; rw [mapLookup_nil]; rfl
  | cons e t ih =>
    intro fns
    rw [mapLookup_cons]
    cases hres : fdcToId foods e.1.1 with
    | none =>
      have hkey : ¬(e.1 = (fdc, nid)) := by
        intro hk
        rw [show e.1.1 = fdc from congrArg Prod.fst hk] at hres
        rw [hfid] at hres
        cases hres
      have hstep : flushTemp foods fns (e :: t) = flushTemp foods fns t := by
        simp only [flushTemp, List.foldl_cons, hres]
      rw [hstep, ih fns, if_neg hkey, oo_none_right]
    | some fid' =>
      have hstep : flushTemp foods fns (e :: t) =
          flushTemp foods (upsertA fns (fid', e.1.2) (e.2, 1)) t := by
        simp only [flushTemp, List.foldl_cons, hres]
      rw [hstep, ih _, mapLookup_upsertA]
      by_cases hkey : e.1 = (fdc, nid)
      · have hfdc1 : e.1.1 = fdc := congrArg Prod.fst hkey
        have hnid1 : e.1.2 = nid := congrArg Prod.snd hkey
        have hfid' : fid' = fid := by
          rw [hfdc1] at hres
          rw [hfid] at hres
          injection hres with h
          exact h.symm
        rw [if_pos hkey, if_pos (by rw [hfid', hnid1])]
        cases htk : mapLookup t (fdc, nid) <;> rfl
      · have hkey' : ¬((fid, nid) = (fid', e.1.2)) := by
          intro hk
          have h1 : fid = fid' := congrArg Prod.fst hk
          have h2 : nid = e.1.2 := congrArg Prod.snd hk
          apply hkey
          have hfdceq : e.1.1 = fdc :=
            fdcToId_inj foods hid e.1.1 fdc fid
              (by rw [hres, h1]) hfid
          have : e.1 = (e.1.1, e.1.2) := rfl
          rw [this, hfdceq, ← h2]
        rw [if_neg hkey, if_neg hkey', oo_none_right]

theorem preloadTemp_keys_nodup (foods : List Food) (fns : FnMap) :
    ((preloadTemp foods fns).map Prod.fst).Nodup := by
  unfold preloadTemp
  suffices h : ∀ (l : FnMap) (acc : TempMap), ((acc.map Prod.fst).Nodup) →
      ((l.foldl (fun acc e =>
        match idToFdc foods e.1.1 with
        | some fdc => upsertA acc (fdc, e.1.2) e.2.1
        | none => acc) acc).map Prod.fst).Nodup by
    exact h fns [] List.nodup_nil
  intro l
  induction l with
  | nil => exact fun acc h => h
  | cons e t ih =>
    intro acc h
    cases hres : idToFdc foods e.1.1 with
    | none =>
      simp only [List.foldl_cons, hres]
      exact ih acc h
    | some fdc =>
      simp only [List.foldl_cons, hres]
      exact ih _ (keys_upsertA_nodup _ _ _ h)

theorem preloadTemp_lookup (foods : List Food) (hid : (foods.map Food.id).Nodup)
    (hfdc : (foods.map Food.fdc_id).Nodup) (fdc fid nid : ℤ)
    (hfid : fdcToId foods fdc = some fid) :
    ∀ (fns : FnMap), (∀ p ∈ fns, ∃ fdc', fdcToId foods fdc' = some p.1.1) →
      mapLookup (preloadTemp foods fns) (fdc, nid) =
        (mapLookup fns (fid, nid)).map Prod.fst := by
  have hinv : idToFdc foods fid = some fdc := fdcToId_idToFdc foods hid fdc fid hfid
  suffices h : ∀ (l : FnMap) (acc : TempMap),
      (∀ p ∈ l, ∃ fdc', fdcToId foods fdc' = some p.1.1) →
      mapLookup (l.foldl (fun acc e =>
        match idToFdc foods e.1.1 with
        | some fdc => upsertA acc (fdc, e.1.2) e.2.1
        | none => acc) acc) (fdc, nid) =
      oo ((mapLookup l (fid, nid)).map Prod.fst) (mapLookup acc (fdc, nid)) by
    intro fns hres
    unfold preloadTemp
    rw [h fns [] hres, mapLookup_nil, oo_none_right]
  intro l
  induction l with
  | nil =>
    intro acc _
    rw [mapLookup_nil]
    rfl
  | cons e t ih =>
    intro acc hres
    have hrese := hres e (List.mem_cons_self _ _)
    obtain ⟨fdc', hfdc'⟩ := hrese
    have hresid : idToFdc foods e.1.1 = some fdc' :=
      fdcToId_idToFdc foods hid fdc' e.1.1 hfdc'
    simp only [List.foldl_cons, hresid]
    rw [ih _ (fun p hp => hres p (List.mem_cons_of_mem _ hp)), mapLookup_cons,
      mapLookup_upsertA]
    by_cases hkey : e.1 = (fid, nid)
    · have h1 : e.1.1 = fid := congrArg Prod.fst hkey
      have h2 : e.1.2 = nid := congrArg Prod.snd hkey
      have hfdceq : fdc' = fdc := by
        rw [h1] at hresid
        rw [hinv] at hresid
        injection hresid with h
        exact h.symm
      rw [if_pos hkey, if_pos (by rw [hfdceq, h2])]
      cases htk : mapLookup t (fid, nid) <;> rfl
    · have hkey' : ¬((fdc, nid) = (fdc', e.1.2)) := by
        intro hk
        have h1 : fdc = fdc' := congrArg Prod.fst hk
        have h2 : nid = e.1.2 := congrArg Prod.snd hk
        apply hkey
        have : e.1.1 = fid :=
          idToFdc_inj foods hfdc e.1.1 fid fdc (by rw [hresid, ← h1]) hinv
        have he : e.1 = (e.1.1, e.1.2) := rfl
        rw [he, this, ← h2]
      rw [if_neg hkey, if_neg hkey', oo_none_right]

/-! ## The loop invariant -/

theorem mapLookup_some_mem {κ β : Type} [DecidableEq κ] (m : List (κ × β)) (k : κ) (v : β)
    (h : mapLookup m k = some v) : (k, v) ∈ m := by
  induction m with
  | nil => cases h
  | cons p t ih =>
    rw [mapLookup_cons] at h
    cases ht : mapLookup t k with
    | some w =>
      rw [ht] at h
      have : w = v := by injection h
      exact List.mem_cons_of_mem _ (ih (ht.trans (by rw [this])))
    | none =>
      rw [ht] at h
      by_cases hp : p.1 = k
      · rw [if_pos hp] at h
        have : p.2 = v := by injection h
        have hpe : p = (k, v) := by
          cases p
          simp only at hp this
          rw [hp, this]
        exact hpe ▸ List.mem_cons_self _ _
      · rw [if_neg hp] at h
        cases h

/-- Combined view of staging table plus permanent table equals
last-seen-wins over the first `cov` source rows, for every resolvable
`fdc_id`. -/
def CombinedEq (file : List SrcRow) (foods : List Food) (temp : TempMap) (fns : FnMap)
    (cov : ℕ) : Prop :=
  ∀ fdc fid nid, fdcToId foods fdc = some fid →
    oo (mapLookup temp (fdc, nid)) ((mapLookup fns (fid, nid)).map Prod.fst) =
      lastAmount (file.take cov) (fdc, nid)

/-- The permanent table alone equals last-seen-wins over the first
`cov` source rows (each row carrying `confidence_score = 1`). -/
def FlushedChar (file : List SrcRow) (foods : List Food) (fns : FnMap) (cov : ℕ) : Prop :=
  ∀ fdc fid nid, fdcToId foods fdc = some fid →
    mapLookup fns (fid, nid) =
      (lastAmount (file.take cov) (fdc, nid)).map (fun a => (a, (1 : ℚ)))

/-- What a mid-run checkpoint commit leaves on disk: a positive offset
`p ≤ total`, recorded in the latest `in_progress` checkpoint row, with
`food_nutrients` holding exactly the flushed image of the first `p`
source rows. -/
def GoodCommit (file : List SrcRow) (foods : List Food) (cs : ImportState) : Prop :=
  ∃ p, 0 < p ∧ p ≤ file.length ∧
    (∃ t, latestInProgress cs.log =
      some ⟨"food_nutrients", p, file.length, "in_progress", t⟩) ∧
    (cs.fns.map Prod.fst).Nodup ∧ Resolvable foods cs.fns ∧
    FlushedChar file foods cs.fns p

theorem flushed_of_combined_empty (file : List SrcRow) (foods : List Food) (fns : FnMap)
    (cov : ℕ) (hres : Resolvable foods fns)
    (hcomb : CombinedEq file foods [] fns cov) : FlushedChar file foods fns cov := by
  intro fdc fid nid hfid
  have h := hcomb fdc fid nid hfid
  rw [mapLookup_nil, oo_none_left] at h
  cases hf : mapLookup fns (fid, nid) with
  | none =>
    rw [hf, Option.map_none'] at h
    rw [← h, Option.map_none']
  | some v =>
    rw [hf, Option.map_some'] at h
    have hv2 : v.2 = 1 := (hres _ (mapLookup_some_mem fns _ v hf)).2
    rw [← h, Option.map_some']
    have hv : v = (v.1, 1) := by
      cases v
      simp only at hv2
      rw [hv2]
    rw [← hv]

theorem combined_empty_of_flushed (file : List SrcRow) (foods : List Food) (fns : FnMap)
    (cov : ℕ) (hfl : FlushedChar file foods fns cov) :
    CombinedEq file foods [] fns cov := by
  intro fdc fid nid hfid
  rw [mapLookup_nil, oo_none_left, hfl fdc fid nid hfid]
  cases lastAmount (file.take cov) (fdc, nid) <;> rfl

theorem flush_step (file : List SrcRow) (foods : List Food)
    (hid : (foods.map Food.id).Nodup) (temp : TempMap) (fns : FnMap) (cov : ℕ)
    (hnd : (fns.map Prod.fst).Nodup) (hres : Resolvable foods fns)
    (hcomb : CombinedEq file foods temp fns cov) :
    ((flushTemp foods fns temp).map Prod.fst).Nodup ∧
    Resolvable foods (flushTemp foods fns temp) ∧
    FlushedChar file foods (flushTemp foods fns temp) cov := by
  refine ⟨flushTemp_keys_nodup foods temp fns hnd,
    flushTemp_resolvable foods temp fns hres, ?_⟩
  intro fdc fid nid hfid
  rw [flushTemp_lookup foods hid fdc fid nid hfid temp fns]
  have h := hcomb fdc fid nid hfid
  cases ht : mapLookup temp (fdc, nid) with
  | some a =>
    rw [ht, oo_some_left] at h
    rw [← h]
    rfl
  | none =>
    rw [ht, oo_none_left] at h
    rw [Option.map_none', oo_none_left]
    cases hf : mapLookup fns (fid, nid) with
    | none =>
      rw [hf, Option.map_none'] at h
      rw [← h, Option.map_none']
    | some v =>
      rw [hf, Option.map_some'] at h
      have hv2 : v.2 = 1 := (hres _ (mapLookup_some_mem fns _ v hf)).2
      rw [← h, Option.map_some']
      have : v = (v.1, 1) := by
        cases v
        simp only at hv2
        rw [hv2]
      rw [← this]

theorem oo_absorb {α : Type} (a b c : Option α) :
    oo (oo a b) (oo b c) = oo a (oo b c) := by
  cases a <;> cases b <;> rfl

theorem lastAmount_append (l₁ l₂ : List SrcRow) (k : ℤ × ℤ) :
    lastAmount (l₁ ++ l₂) k = oo (lastAmount l₂ k) (lastAmount l₁ k) :=
  lastBy_append _ _ _

theorem lastAmount_batch_absorb (file : List SrcRow) (B i cov : ℕ)
    (hic : i ≤ cov) (hce : cov ≤ i + (batchAt file B i).length) (k : ℤ × ℤ) :
    oo (lastAmount (batchAt file B i) k) (lastAmount (file.take cov) k) =
      lastAmount (file.take (i + (batchAt file B i).length)) k := by
  have hL : (batchAt file B i).length =
      min (min (i + B) file.length) (file.length - i) := by
    rw [batchAt, List.length_take, List.length_drop]
  set L := (batchAt file B i).length with hLdef
  have hbatch : batchAt file B i = (file.drop i).take L := by
    rw [batchAt]
    apply List.take_eq_take.mpr
    rw [List.length_drop]
    omega
  have hsplit1 : file.take cov = file.take i ++ (file.drop i).take (cov - i) := by
    have h1 : cov = i + (cov - i) := by omega
    calc file.take cov = file.take (i + (cov - i)) := by rw [← h1]
    _ = file.take i ++ (file.drop i).take (cov - i) := List.take_add file i (cov - i)
  have hsplit2 : (file.drop i).take L =
      (file.drop i).take (cov - i) ++ (file.drop cov).take (i + L - cov) := by
    have h1 : L = (cov - i) + (i + L - cov) := by omega
    calc (file.drop i).take L = (file.drop i).take ((cov - i) + (i + L - cov)) := by
          rw [← h1]
    _ = (file.drop i).take (cov - i) ++
          ((file.drop i).drop (cov - i)).take (i + L - cov) :=
        List.take_add _ _ _
    _ = (file.drop i).take (cov - i) ++ (file.drop cov).take (i + L - cov) := by
        rw [List.drop_drop, show i + (cov - i) = cov by omega]
  have hsplit3 : file.take (i + L) = file.take cov ++ (file.drop cov).take (i + L - cov) := by
    have h1 : i + L = cov + (i + L - cov) := by omega
    calc file.take (i + L) = file.take (cov + (i + L - cov)) := by rw [← h1]
    _ = file.take cov ++ (file.drop cov).take (i + L - cov) := List.take_add _ _ _
  rw [hbatch, hsplit2, hsplit3, hsplit1]
  simp only [lastAmount_append]
  exact oo_absorb _ _ _

/-! ## The batch-loop specification -/

theorem nutrientImportLoop_not_lt (file : List SrcRow) (foods : List Food) (B CI fuel i : ℕ)
    (s : LoopSt) (hi : ¬ i < file.length) :
    nutrientImportLoop file foods B CI fuel i s = .ok s := by
  cases fuel <;> (unfold nutrientImportLoop; rw [if_neg hi])

theorem nutrientImportLoop_succ_error (file : List SrcRow) (foods : List Food)
    (B CI fuel i : ℕ) (s : LoopSt) (hi : i < file.length) (e : Unit)
    (hbv : batchValues (batchAt file B i) = .error e) :
    nutrientImportLoop file foods B CI (fuel + 1) i s = .error s := by
  unfold nutrientImportLoop
  rw [if_pos hi, hbv]

theorem nutrientImportLoop_succ_ok (file : List SrcRow) (foods : List Food)
    (B CI fuel i : ℕ) (s : LoopSt) (hi : i < file.length)
    (vs : List ((ℤ × ℤ) × ℚ)) (hbv : batchValues (batchAt file B i) = .ok vs) :
    nutrientImportLoop file foods B CI (fuel + 1) i s =
      (if (i + (batchAt file B i).length) % CI < B then
        nutrientImportLoop file foods B CI fuel (i + B)
          ⟨[], flushTemp foods s.fns (insertAll s.temp vs),
            addCkpt s.log "in_progress" (i + (batchAt file B i).length) file.length,
            s.commits ++ [⟨flushTemp foods s.fns (insertAll s.temp vs),
              addCkpt s.log "in_progress" (i + (batchAt file B i).length) file.length⟩]⟩
      else
        nutrientImportLoop file foods B CI fuel (i + B)
          ⟨insertAll s.temp vs, s.fns, s.log, s.commits⟩) := by
  conv_lhs => unfold nutrientImportLoop
  rw [if_pos hi, hbv]

theorem getLast?_cons_of_ne_nil {α : Type} (a : α) (l : List α) (h : l ≠ []) :
    (a :: l).getLast? = l.getLast? := by
  cases l with
  | nil => exact absurd rfl h
  | cons b t => exact List.getLast?_cons_cons

theorem nutrientImportLoop_spec (file : List SrcRow) (foods : List Food) (B CI : ℕ)
    (hB : 0 < B) (hgood : NoBadAmounts file) (hid : (foods.map Food.id).Nodup) :
    ∀ (fuel i cov : ℕ) (s : LoopSt),
      file.length - i ≤ fuel →
      min i file.length ≤ cov →
      cov ≤ file.length →
      (i < file.length → cov ≤ min (i + min (i + B) file.length) file.length) →
      (s.temp.map Prod.fst).Nodup →
      (s.fns.map Prod.fst).Nodup →
      Resolvable foods s.fns →
      CombinedEq file foods s.temp s.fns cov →
      ∃ s', nutrientImportLoop file foods B CI fuel i s = .ok s' ∧
        (s'.temp.map Prod.fst).Nodup ∧
        (s'.fns.map Prod.fst).Nodup ∧
        Resolvable foods s'.fns ∧
        CombinedEq file foods s'.temp s'.fns file.length ∧
        (∃ Δ, s'.log = s.log ++ Δ ∧
          ∀ c ∈ Δ, c.table_name = "food_nutrients" ∧ c.status = "in_progress" ∧
            0 < c.last_processed ∧ c.last_processed ≤ file.length) ∧
        (∃ newCs, s'.commits = s.commits ++ newCs ∧
          (∀ cs ∈ newCs, GoodCommit file foods cs) ∧
          (newCs = [] → s'.log = s.log) ∧
          (∀ csLast, newCs.getLast? = some csLast → s'.log = csLast.log)) := by
  intro fuel
  induction fuel with
  | zero =>
    intro i cov s hfuel hcov1 hcov2 hcov3 htnd hfnd hres hcomb
    have hi : ¬ i < file.length := by omega
    rw [nutrientImportLoop_not_lt file foods B CI 0 i s hi]
    have hcovN : cov = file.length := by
      rw [min_eq_right (by omega : file.length ≤ i)] at hcov1
      omega
    exact ⟨s, rfl, htnd, hfnd, hres, hcovN ▸ hcomb,
      ⟨[], by simp, by simp⟩,
      ⟨[], by simp, by simp, fun _ => rfl, fun c h => by cases h⟩⟩
  | succ f ih =>
    intro i cov s hfuel hcov1 hcov2 hcov3 htnd hfnd hres hcomb
    by_cases hi : i < file.length
    · have hgoodbatch : ∀ r ∈ batchAt file B i, r.amount ≠ Amt.bad := fun r hr =>
        hgood r (List.mem_of_mem_drop (List.mem_of_mem_take hr))
      rw [nutrientImportLoop_succ_ok file foods B CI f i s hi _
        (batchValues_eq_ok _ hgoodbatch)]
      have hL : (batchAt file B i).length =
          min (min (i + B) file.length) (file.length - i) := by
        rw [batchAt, List.length_take, List.length_drop]
      have hL1 : 1 ≤ (batchAt file B i).length := by omega
      have hicov : i ≤ cov := by
        rw [min_eq_left (by omega : i ≤ file.length)] at hcov1
        exact hcov1
      have hcove : cov ≤ i + (batchAt file B i).length := by
        have := hcov3 hi
        omega
      have hcomb' : CombinedEq file foods (insertAll s.temp (batchVals (batchAt file B i)))
          s.fns (i + (batchAt file B i).length) := by
        intro fdc fid nid hfid
        rw [mapLookup_insertAll, mapLookup_batchVals, oo_assoc, hcomb fdc fid nid hfid]
        exact lastAmount_batch_absorb file B i cov hicov hcove (fdc, nid)
      have htnd' : ((insertAll s.temp (batchVals (batchAt file B i))).map Prod.fst).Nodup :=
        keys_insertAll_nodup _ _ htnd
      have hnum1 : file.length - (i + B) ≤ f := by omega
      have hnum2 : min (i + B) file.length ≤ i + (batchAt file B i).length := by omega
      have hnum3 : i + (batchAt file B i).length ≤ file.length := by omega
      have hnum4 : i + B < file.length →
          i + (batchAt file B i).length ≤
            min ((i + B) + min ((i + B) + B) file.length) file.length := by omega
      by_cases hcp : (i + (batchAt file B i).length) % CI < B
      · rw [if_pos hcp]
        have hflush := flush_step file foods hid
          (insertAll s.temp (batchVals (batchAt file B i))) s.fns
          (i + (batchAt file B i).length) hfnd hres hcomb'
        obtain ⟨hfnd₁, hres₁, hchar₁⟩ := hflush
        have hcomb₁ : CombinedEq file foods []
            (flushTemp foods s.fns (insertAll s.temp (batchVals (batchAt file B i))))
            (i + (batchAt file B i).length) :=
          combined_empty_of_flushed _ _ _ _ hchar₁
        obtain ⟨s'', heq, h1, h2, h3, h4, ⟨Δ', hΔ'log, hΔ'props⟩,
          ⟨newCs', hcommits', hgoodCs', hnil', hlast'⟩⟩ :=
          ih (i + B) (i + (batchAt file B i).length)
            ⟨[], flushTemp foods s.fns (insertAll s.temp (batchVals (batchAt file B i))),
              addCkpt s.log "in_progress" (i + (batchAt file B i).length) file.length,
              s.commits ++ [⟨flushTemp foods s.fns
                  (insertAll s.temp (batchVals (batchAt file B i))),
                addCkpt s.log "in_progress" (i + (batchAt file B i).length) file.length⟩]⟩
            hnum1 hnum2 hnum3 hnum4 List.nodup_nil hfnd₁ hres₁ hcomb₁
        refine ⟨s'', heq, h1, h2, h3, h4, ?_, ?_⟩
        · refine ⟨⟨"food_nutrients", i + (batchAt file B i).length, file.length,
            "in_progress", newTime s.log⟩ :: Δ', ?_, ?_⟩
          · rw [hΔ'log]
            show (s.log ++ [_]) ++ Δ' = _
            rw [List.append_assoc]
            rfl
          · intro c hc
            rcases List.mem_cons.1 hc with he | hm
            · subst he
              refine ⟨rfl, rfl, ?_, ?_⟩
              · show 0 < i + (batchAt file B i).length
                omega
              · show i + (batchAt file B i).length ≤ file.length
                omega
            · exact hΔ'props c hm
        · refine ⟨⟨flushTemp foods s.fns (insertAll s.temp (batchVals (batchAt file B i))),
            addCkpt s.log "in_progress" (i + (batchAt file B i).length) file.length⟩
              :: newCs', ?_, ?_, ?_, ?_⟩
          · rw [hcommits']
            rw [List.append_assoc]
            rfl
          · intro cs hcs
            rcases List.mem_cons.1 hcs with he | hm
            · subst he
              refine ⟨i + (batchAt file B i).length, by omega, by omega,
                ⟨newTime s.log, latestInProgress_addCkpt_in_progress s.log _ _⟩,
                hfnd₁, hres₁, hchar₁⟩
            · exact hgoodCs' cs hm
          · intro h
            exact absurd h (List.cons_ne_nil _ _)
          · intro csLast hlastEq
            cases hnewCs' : newCs' with
            | nil =>
              rw [hnewCs'] at hlastEq
              have : csLast = ⟨flushTemp foods s.fns
                  (insertAll s.temp (batchVals (batchAt file B i))),
                addCkpt s.log "in_progress"
                  (i + (batchAt file B i).length) file.length⟩ := by
                rw [List.getLast?_singleton] at hlastEq
                injection hlastEq with h'
                exact h'.symm
              rw [this]
              exact hnil' hnewCs'
            | cons c0 t0 =>
              rw [hnewCs'] at hlastEq
              rw [getLast?_cons_of_ne_nil _ _ (List.cons_ne_nil _ _)] at hlastEq
              rw [← hnewCs'] at hlastEq
              exact hlast' csLast hlastEq
      · rw [if_neg hcp]
        obtain ⟨s'', heq, h1, h2, h3, h4, ⟨Δ', hΔ'log, hΔ'props⟩,
          ⟨newCs', hcommits', hgoodCs', hnil', hlast'⟩⟩ :=
          ih (i + B) (i + (batchAt file B i).length)
            ⟨insertAll s.temp (batchVals (batchAt file B i)), s.fns, s.log, s.commits⟩
            hnum1 hnum2 hnum3 hnum4 htnd' hfnd hres hcomb'
        exact ⟨s'', heq, h1, h2, h3, h4, ⟨Δ', hΔ'log, hΔ'props⟩,
          ⟨newCs', hcommits', hgoodCs', hnil', hlast'⟩⟩
    · rw [nutrientImportLoop_not_lt file foods B CI (f + 1) i s hi]
      have hcovN : cov = file.length := by
        rw [min_eq_right (by omega : file.length ≤ i)] at hcov1
        omega
      exact ⟨s, rfl, htnd, hfnd, hres, hcovN ▸ hcomb,
        ⟨[], by simp, by simp⟩,
        ⟨[], by simp, by simp, fun _ => rfl, fun c h => by cases h⟩⟩

/-! ## Top-level run specifications -/

theorem resumeStart_none (st : ImportState) (h : latestInProgress st.log = none) :
    resumeStart st = (0, ⟨[], st.log⟩) := by
  unfold resumeStart
  rw [h]

theorem resumeStart_some_pos (st : ImportState) (c : Ckpt)
    (h : latestInProgress st.log = some c) (hp : 0 < c.last_processed) :
    resumeStart st = (c.last_processed, st) := by
  unfold resumeStart
  rw [h]
  show (if 0 < c.last_processed then (c.last_processed, st)
    else ((0 : ℕ), (⟨[], st.log⟩ : ImportState))) = _
  rw [if_pos hp]

theorem nutrientDataImportGen_eq (B CI : ℕ) (file : List SrcRow) (foods : List Food)
    (st : ImportState) :
    nutrientDataImportGen B CI file foods st =
      (match nutrientImportLoop file foods B CI file.length (resumeStart st).1
          ⟨(if 0 < (resumeStart st).1 then preloadTemp foods (resumeStart st).2.fns
              else []),
            (resumeStart st).2.fns, (resumeStart st).2.log, []⟩ with
      | .error s => (.error ⟨s.fns, s.log⟩, s.commits)
      | .ok s =>
        (.ok ⟨flushTemp foods s.fns s.temp,
          addCkpt s.log "completed" file.length file.length⟩, s.commits)) := rfl

theorem oo_self {α : Type} (x : Option α) : oo x x = x := by
  cases x <;> rfl

/-- Membership characterisation of a fully flushed `food_nutrients`
table. -/
theorem mem_char (file : List SrcRow) (foods : List Food) (fns : FnMap)
    (hnd : (fns.map Prod.fst).Nodup) (hres : Resolvable foods fns)
    (hchar : ∀ fdc fid nid, fdcToId foods fdc = some fid →
      mapLookup fns (fid, nid) = (lastAmount file (fdc, nid)).map (fun a => (a, (1 : ℚ)))) :
    ∀ fid nid a c, ((fid, nid), (a, c)) ∈ fns ↔
      (∃ fdc, fdcToId foods fdc = some fid ∧ lastAmount file (fdc, nid) = some a ∧ c = 1) := by
  intro fid nid a c
  constructor
  · intro hmem
    have hl : mapLookup fns (fid, nid) = some (a, c) :=
      (mem_iff_mapLookup fns hnd _ _).1 hmem
    obtain ⟨⟨fdc, hfdc⟩, hc⟩ := hres _ hmem
    refine ⟨fdc, hfdc, ?_, hc⟩
    have h := hchar fdc fid nid hfdc
    rw [hl] at h
    cases hla : lastAmount file (fdc, nid) with
    | none => rw [hla, Option.map_none'] at h; cases h
    | some b =>
      rw [hla, Option.map_some'] at h
      injection h with h'
      have hab : a = b := congrArg Prod.fst h'
      rw [hab]
  · rintro ⟨fdc, hfdc, hla, hc⟩
    subst hc
    have h := hchar fdc fid nid hfdc
    rw [hla, Option.map_some'] at h
    exact (mem_iff_mapLookup fns hnd _ _).2 h

theorem fresh_run_spec (B CI : ℕ) (hB : 0 < B) (file : List SrcRow) (foods : List Food)
    (st : ImportState) (hfresh : latestInProgress st.log = none)
    (hgood : NoBadAmounts file) (hid : (foods.map Food.id).Nodup) :
    ∃ st', (nutrientDataImportGen B CI file foods st).1 = .ok st' ∧
      (st'.fns.map Prod.fst).Nodup ∧ Resolvable foods st'.fns ∧
      (∀ fdc fid nid, fdcToId foods fdc = some fid →
        mapLookup st'.fns (fid, nid) =
          (lastAmount file (fdc, nid)).map (fun a => (a, (1 : ℚ)))) ∧
      (∀ cs ∈ (nutrientDataImportGen B CI file foods st).2, GoodCommit file foods cs) ∧
      (∃ Δ, st'.log = st.log ++ Δ ++
          [⟨"food_nutrients", file.length, file.length, "completed",
            newTime (st.log ++ Δ)⟩] ∧
        ∀ c ∈ Δ, c.table_name = "food_nutrients" ∧ c.status = "in_progress" ∧
          0 < c.last_processed ∧ c.last_processed ≤ file.length) ∧
      ((nutrientDataImportGen B CI file foods st).2 ≠ [] →
        ∃ c, latestInProgress st'.log = some c ∧ 0 < c.last_processed) := by
  have hrs : resumeStart st = (0, ⟨[], st.log⟩) := resumeStart_none st hfresh
  obtain ⟨s', heq, h1, h2, h3, h4, ⟨Δ, hΔlog, hΔprops⟩,
    ⟨newCs, hcommits, hgoodCs, hnil, hlast⟩⟩ :=
    nutrientImportLoop_spec file foods B CI hB hgood hid file.length 0 0
      ⟨[], [], st.log, []⟩ (by omega) (by omega) (by omega)
      (fun _ => Nat.zero_le _) List.nodup_nil List.nodup_nil
      (fun p hp => absurd hp (List.not_mem_nil p))
      (fun fdc fid nid _ => by
        rw [List.take_zero]
        rfl)
  have hrun : nutrientDataImportGen B CI file foods st =
      (.ok ⟨flushTemp foods s'.fns s'.temp,
        addCkpt s'.log "completed" file.length file.length⟩, s'.commits) := by
    rw [nutrientDataImportGen_eq, hrs]
    show (match nutrientImportLoop file foods B CI file.length 0
        ⟨[], [], st.log, []⟩ with
      | .error s => ((Except.error ⟨s.fns, s.log⟩ : Except ImportState ImportState),
          s.commits)
      | .ok s =>
        (.ok ⟨flushTemp foods s.fns s.temp,
          addCkpt s.log "completed" file.length file.length⟩, s.commits)) = _
    rw [heq]
  obtain ⟨hfnd', hres', hchar'⟩ :=
    flush_step file foods hid s'.temp s'.fns file.length h2 h3 h4
  refine ⟨⟨flushTemp foods s'.fns s'.temp,
      addCkpt s'.log "completed" file.length file.length⟩,
    by rw [hrun], hfnd', hres', ?_, ?_, ?_, ?_⟩
  · intro fdc fid nid hfid
    have h := hchar' fdc fid nid hfid
    rw [List.take_length] at h
    exact h
  · intro cs hcs
    rw [hrun] at hcs
    have : cs ∈ s'.commits := hcs
    rw [hcommits] at this
    exact hgoodCs cs (by simpa using this)
  · refine ⟨Δ, ?_, hΔprops⟩
    show addCkpt s'.log "completed" file.length file.length = _
    rw [addCkpt, hΔlog]
  · intro hne
    rw [hrun] at hne
    have hne' : newCs ≠ [] := by
      intro h
      rw [h] at hcommits
      rw [List.append_nil] at hcommits
      exact hne (by simpa using hcommits)
    obtain ⟨csLast, hcsLast⟩ :=
      Option.isSome_iff_exists.1 (by
        rw [List.getLast?_isSome]
        exact hne')
    have hlog' : s'.log = csLast.log := hlast csLast hcsLast
    have hmemLast : csLast ∈ newCs := by
      have := List.getLast?_eq_getLast newCs hne'
      rw [this] at hcsLast
      injection hcsLast with h'
      exact h' ▸ List.getLast_mem hne'
    obtain ⟨p, hp0, hpN, ⟨t, hlatest⟩, _, _, _⟩ := hgoodCs csLast hmemLast
    refine ⟨⟨"food_nutrients", p, file.length, "in_progress", t⟩, ?_, hp0⟩
    show latestInProgress (addCkpt s'.log "completed" file.length file.length) = _
    rw [latestInProgress_addCkpt_completed, hlog']
    exact hlatest

theorem resume_run_spec (B CI : ℕ) (hB : 0 < B) (file : List SrcRow) (foods : List Food)
    (hgood : NoBadAmounts file) (hid : (foods.map Food.id).Nodup)
    (hfdc : (foods.map Food.fdc_id).Nodup) (stj : ImportState)
    (hgc : GoodCommit file foods stj) :
    ∃ stR, (nutrientDataImportGen B CI file foods stj).1 = .ok stR ∧
      (stR.fns.map Prod.fst).Nodup ∧ Resolvable foods stR.fns ∧
      (∀ fdc fid nid, fdcToId foods fdc = some fid →
        mapLookup stR.fns (fid, nid) =
          (lastAmount file (fdc, nid)).map (fun a => (a, (1 : ℚ)))) := by
  obtain ⟨p, hp0, hpN, ⟨t, hlatest⟩, hnd, hres, hchar⟩ := hgc
  have hrs : resumeStart stj = (p, stj) :=
    resumeStart_some_pos stj _ hlatest hp0
  have hcomb : CombinedEq file foods (preloadTemp foods stj.fns) stj.fns p := by
    intro fdc fid nid hfid
    rw [preloadTemp_lookup foods hid hfdc fdc fid nid hfid stj.fns
      (fun q hq => (hres q hq).1)]
    rw [hchar fdc fid nid hfid]
    cases lastAmount (file.take p) (fdc, nid) <;> rfl
  obtain ⟨s', heq, h1, h2, h3, h4, _, _⟩ :=
    nutrientImportLoop_spec file foods B CI hB hgood hid file.length p p
      ⟨preloadTemp foods stj.fns, stj.fns, stj.log, []⟩
      (by omega) (by omega) hpN (fun hlt => by omega)
      (preloadTemp_keys_nodup foods stj.fns) hnd hres hcomb
  have hrun : nutrientDataImportGen B CI file foods stj =
      (.ok ⟨flushTemp foods s'.fns s'.temp,
        addCkpt s'.log "completed" file.length file.length⟩, s'.commits) := by
    rw [nutrientDataImportGen_eq, hrs]
    show (match nutrientImportLoop file foods B CI file.length p
        ⟨(if 0 < p then preloadTemp foods stj.fns else []), stj.fns, stj.log, []⟩ with
      | .error s => ((Except.error ⟨s.fns, s.log⟩ : Except ImportState ImportState),
          s.commits)
      | .ok s =>
        (.ok ⟨flushTemp foods s.fns s.temp,
          addCkpt s.log "completed" file.length file.length⟩, s.commits)) = _
    rw [if_pos hp0, heq]
  obtain ⟨hfnd', hres', hchar'⟩ :=
    flush_step file foods hid s'.temp s'.fns file.length h2 h3 h4
  refine ⟨⟨flushTemp foods s'.fns s'.temp,
      addCkpt s'.log "completed" file.length file.length⟩,
    by rw [hrun], hfnd', hres', ?_⟩
  intro fdc fid nid hfid
  have h := hchar' fdc fid nid hfid
  rw [List.take_length] at h
  exact h

/-! ## Error paths: a bad fact amount, a bad food row -/

theorem mem_drop_of_mem_drop_ge {α : Type} (l : List α) (m n : ℕ) (h : m ≤ n) (x : α)
    (hx : x ∈ l.drop n) : x ∈ l.drop m := by
  have he : l.drop n = (l.drop m).drop (n - m) := by
    rw [List.drop_drop]
    congr 1
    omega
  rw [he] at hx
  exact List.mem_of_mem_drop hx

theorem nutrientImportLoop_error_of_bad (file : List SrcRow) (foods : List Food)
    (B CI : ℕ) (hB : 0 < B) :
    ∀ (fuel i : ℕ) (s : LoopSt),
      file.length ≤ fuel + i →
      (∃ r ∈ file.drop i, r.amount = Amt.bad) →
      ∃ s', nutrientImportLoop file foods B CI fuel i s = .error s' := by
  intro fuel
  induction fuel with
  | zero =>
    intro i s hfuel hbad
    obtain ⟨r, hr, _⟩ := hbad
    rw [List.drop_eq_nil_of_le (by omega : file.length ≤ i)] at hr
    cases hr
  | succ f ih =>
    intro i s hfuel hbad
    by_cases hi : i < file.length
    · cases hbv : batchValues (batchAt file B i) with
      | error e =>
        exact ⟨s, nutrientImportLoop_succ_error file foods B CI f i s hi e hbv⟩
      | ok vs =>
        have hnobad : ∀ r ∈ batchAt file B i, r.amount ≠ Amt.bad := by
          intro r hr hbadr
          rw [batchValues_error _ ⟨r, hr, hbadr⟩] at hbv
          cases hbv
        obtain ⟨r, hr, hbadr⟩ := hbad
        have hsplit : file.drop i =
            (file.drop i).take (min (i + B) file.length) ++
              (file.drop i).drop (min (i + B) file.length) :=
          (List.take_append_drop _ _).symm
        rw [hsplit] at hr
        have hrtail : r ∈ file.drop (i + B) := by
          rcases List.mem_append.1 hr with hfront | hback
          · exact absurd hbadr (hnobad r hfront)
          · by_cases hN : i + B ≤ file.length
            · rw [min_eq_left hN, List.drop_drop] at hback
              exact mem_drop_of_mem_drop_ge file (i + B) (i + (i + B)) (by omega) r hback
            · rw [min_eq_right (by omega : file.length ≤ i + B),
                List.drop_drop,
                List.drop_eq_nil_of_le
                  (by omega : file.length ≤ i + file.length)] at hback
              cases hback
        rw [nutrientImportLoop_succ_ok file foods B CI f i s hi vs hbv]
        by_cases hcp : (i + (batchAt file B i).length) % CI < B
        · rw [if_pos hcp]
          exact ih (i + B) _ (by omega) ⟨r, hrtail, hbadr⟩
        · rw [if_neg hcp]
          exact ih (i + B) _ (by omega) ⟨r, hrtail, hbadr⟩
    · obtain ⟨r, hr, _⟩ := hbad
      rw [List.drop_eq_nil_of_le (by omega : file.length ≤ i)] at hr
      cases hr

theorem nutrientDataImportGen_error_of_bad (B CI : ℕ) (hB : 0 < B)
    (file : List SrcRow) (foods : List Food) (st : ImportState)
    (hfresh : latestInProgress st.log = none)
    (hbad : ∃ r ∈ file, r.amount = Amt.bad) :
    ∃ s, (nutrientDataImportGen B CI file foods st).1 = .error s := by
  have hrs : resumeStart st = (0, ⟨[], st.log⟩) := resumeStart_none st hfresh
  obtain ⟨s', hs'⟩ := nutrientImportLoop_error_of_bad file foods B CI hB
    file.length 0 ⟨[], [], st.log, []⟩ (by omega) hbad
  refine ⟨⟨s'.fns, s'.log⟩, ?_⟩
  rw [nutrientDataImportGen_eq, hrs]
  show (match nutrientImportLoop file foods B CI file.length 0
      ⟨[], [], st.log, []⟩ with
    | .error s => ((Except.error ⟨s.fns, s.log⟩ : Except ImportState ImportState),
        s.commits)
    | .ok s =>
      (.ok ⟨flushTemp foods s.fns s.temp,
        addCkpt s.log "completed" file.length file.length⟩, s.commits)).1 = _
  rw [hs']

theorem foundationFoodsRows_error (cats : List (ℕ × String)) (defaultId : ℕ) :
    ∀ (rows : List FoodSrcRow) (acc : List (ℤ × (String × ℕ))),
      (∃ r ∈ rows, r.fdc_id = none ∨ r.description = none) →
      foundationFoodsRows cats defaultId rows acc = .error () := by
  intro rows
  induction rows with
  | nil =>
    intro acc h
    obtain ⟨r, hr, _⟩ := h
    cases hr
  | cons row t ih =>
    intro acc h
    obtain ⟨rf, rd, rc⟩ := row
    cases rf with
    | none => rfl
    | some fdc =>
      cases rd with
      | none => rfl
      | some desc =>
        show foundationFoodsRows cats defaultId t _ = .error ()
        apply ih
        obtain ⟨r, hr, hrprop⟩ := h
        rcases List.mem_cons.1 hr with he | hm
        · subst he
          rcases hrprop with h1 | h1 <;> simp at h1
        · exact ⟨r, hm, hrprop⟩

/-! ## C2: the importer postcondition -/

/-- C2: after a complete `import_nutrient_data` run started with no
`in_progress` checkpoint on a cleanly parsing file, a `food_nutrients`
row `((food_id, nutrient_id), (amount, confidence))` exists iff some
source `fdc_id` resolves through `foods` to `food_id` and the last
non-null source amount for `(fdc_id, nutrient_id)` is `amount`, with
confidence score 1; source rows whose `fdc_id` has no `foods` match are
silently dropped, no other rows exist, and every present
`(food_id, nutrient_id)` key has exactly one row. -/
theorem c2_importer_postcondition (B CI : ℕ) (hB : 0 < B) (file : List SrcRow)
    (foods : List Food) (st : ImportState) (hfresh : latestInProgress st.log = none)
    (hgood : NoBadAmounts file) (hid : (foods.map Food.id).Nodup) :
    ∃ st', (nutrientDataImportGen B CI file foods st).1 = .ok st' ∧
      (∀ fid nid a c, ((fid, nid), (a, c)) ∈ st'.fns ↔
        ∃ fdc, fdcToId foods fdc = some fid ∧
          lastAmount file (fdc, nid) = some a ∧ c = 1) ∧
      (∀ row ∈ st'.fns, st'.fns.countP (fun q => decide (q.1 = row.1)) = 1) := by
  obtain ⟨st', heq, hnd, hres, hchar, _, _, _⟩ :=
    fresh_run_spec B CI hB file foods st hfresh hgood hid
  refine ⟨st', heq, mem_char file foods st'.fns hnd hres hchar, ?_⟩
  intro row hrow
  exact countP_eq_one_of_nodup_map st'.fns Prod.fst hnd row hrow

/-- A three-row fact file: a duplicate `(fdc_id, nutrient_id)` pair
(last value 5 must win) and an `fdc_id` (99) with no `foods` row. -/
def fileW : List SrcRow := [⟨10, 7, Amt.num 3⟩, ⟨10, 7, Amt.num 5⟩, ⟨99, 7, Amt.num 4⟩]

/-- One food: surrogate id 1, business key `fdc_id` 10. -/
def foodsW : List Food := [⟨1, 10, "X"⟩]

/-- C2 witness: the postcondition instantiated at batch size 1,
checkpoint interval 1, the three-row file, one food, and an empty
initial state. -/
theorem c2_importer_postcondition_witness :
    (0 < 1 ∧ latestInProgress (ImportState.mk [] []).log = none ∧
      NoBadAmounts fileW ∧ (foodsW.map Food.id).Nodup) ∧
    (∃ st', (nutrientDataImportGen 1 1 fileW foodsW ⟨[], []⟩).1 = .ok st' ∧
      (∀ fid nid a c, ((fid, nid), (a, c)) ∈ st'.fns ↔
        ∃ fdc, fdcToId foodsW fdc = some fid ∧
          lastAmount fileW (fdc, nid) = some a ∧ c = 1) ∧
      (∀ row ∈ st'.fns, st'.fns.countP (fun q => decide (q.1 = row.1)) = 1)) :=
  ⟨⟨by decide, rfl, show ∀ r ∈ fileW, r.amount ≠ Amt.bad from by decide, by decide⟩,
    c2_importer_postcondition 1 1 (by decide) fileW foodsW ⟨[], []⟩ rfl
      (show ∀ r ∈ fileW, r.amount ≠ Amt.bad from by decide) (by decide)⟩

/-! ## C1: resume correctness -/

/-- C1: resume correctness.  Start `import_nutrient_data` on a state
with no `in_progress` checkpoint; the run's mid-run checkpoint commits
are exactly the durable states at which an interrupt can leave the
database.  For every such committed state `stj`, re-invoking the
importer on `stj` succeeds and produces a `food_nutrients` table with
exactly the same rows `((food_id, nutrient_id), (amount, confidence))`
as the uninterrupted run. -/
theorem c1_resume_correctness (B CI : ℕ) (hB : 0 < B) (file : List SrcRow)
    (foods : List Food) (st : ImportState) (hfresh : latestInProgress st.log = none)
    (hgood : NoBadAmounts file) (hid : (foods.map Food.id).Nodup)
    (hfdc : (foods.map Food.fdc_id).Nodup) (stj : ImportState)
    (hstj : stj ∈ (nutrientDataImportGen B CI file foods st).2) :
    ∃ stU stR, (nutrientDataImportGen B CI file foods st).1 = .ok stU ∧
      (nutrientDataImportGen B CI file foods stj).1 = .ok stR ∧
      ∀ fid nid a c, ((fid, nid), (a, c)) ∈ stR.fns ↔ ((fid, nid), (a, c)) ∈ stU.fns := by
  obtain ⟨stU, hU, hndU, hresU, hcharU, hgoodCs, _, _⟩ :=
    fresh_run_spec B CI hB file foods st hfresh hgood hid
  obtain ⟨stR, hR, hndR, hresR, hcharR⟩ :=
    resume_run_spec B CI hB file foods hgood hid hfdc stj (hgoodCs stj hstj)
  refine ⟨stU, stR, hU, hR, ?_⟩
  intro fid nid a c
  rw [mem_char file foods stR.fns hndR hresR hcharR fid nid a c,
    mem_char file foods stU.fns hndU hresU hcharU fid nid a c]

/-- The durable state after the first checkpoint commit of the batch
run `nutrientDataImportGen 1 1 fileW foodsW ⟨[], []⟩`: one flushed row
and one `in_progress` checkpoint at offset 1 of 3. -/
def stjW : ImportState :=
  ⟨[((1, 7), (3, 1))], [⟨"food_nutrients", 1, 3, "in_progress", 1⟩]⟩

/-- C1 witness: interrupting the batch-size-1 run over the three-row
file right after its first checkpoint commit and re-running reproduces
the uninterrupted run's table. -/
theorem c1_resume_correctness_witness :
    (0 < 1 ∧ latestInProgress (ImportState.mk [] []).log = none ∧
      NoBadAmounts fileW ∧ (foodsW.map Food.id).Nodup ∧
      (foodsW.map Food.fdc_id).Nodup ∧
      stjW ∈ (nutrientDataImportGen 1 1 fileW foodsW ⟨[], []⟩).2) ∧
    (∃ stU stR, (nutrientDataImportGen 1 1 fileW foodsW ⟨[], []⟩).1 = .ok stU ∧
      (nutrientDataImportGen 1 1 fileW foodsW stjW).1 = .ok stR ∧
      ∀ fid nid a c, ((fid, nid), (a, c)) ∈ stR.fns ↔ ((fid, nid), (a, c)) ∈ stU.fns) :=
  ⟨⟨by decide, rfl, show ∀ r ∈ fileW, r.amount ≠ Amt.bad from by decide,
      by decide, by decide, by decide⟩,
    c1_resume_correctness 1 1 (by decide) fileW foodsW ⟨[], []⟩ rfl
      (show ∀ r ∈ fileW, r.amount ≠ Amt.bad from by decide) (by decide) (by decide)
      stjW (by decide)⟩

/-! ## C8: the row-error policy -/

/-- A one-row fact file whose non-null amount cannot be parsed. -/
def badFileW : List SrcRow := [⟨10, 7, Amt.bad⟩]

/-- C8 (counterexample): the claimed skip-and-continue policy for fact
rows does not hold — a single unparsable non-null amount aborts
`import_nutrient_data`.  On a one-bad-row file the run returns an error
(with the pre-run durable state) and commits nothing; the spec's claim
would require a successful run that skips the row. -/
theorem c8_counterexample_bad_fact_row_aborts :
    nutrientDataImport badFileW foodsW ⟨[], []⟩ =
      (.error ⟨[], []⟩, []) := rfl

/-- C8 (amended): the batch comprehension of `import_nutrient_data`
skips only NULL amounts; a non-null unparsable amount raises before the
batch is staged and the error propagates, aborting the whole fact
import, exactly as a row failure (a NULL `fdc_id` or description) in
`import_foundation_foods` aborts the whole food import. -/
theorem c8_amended_row_error_policy (B CI : ℕ) (hB : 0 < B) (file : List SrcRow)
    (foods : List Food) (st : ImportState) (hfresh : latestInProgress st.log = none)
    (cats : List (ℕ × String)) (defaultId : ℕ) (rows : List FoodSrcRow)
    (hbadfact : ∃ r ∈ file, r.amount = Amt.bad)
    (hbadfood : ∃ r ∈ rows, r.fdc_id = none ∨ r.description = none) :
    (∃ s, (nutrientDataImportGen B CI file foods st).1 = .error s) ∧
    foundationFoodsImport cats defaultId rows = .error () :=
  ⟨nutrientDataImportGen_error_of_bad B CI hB file foods st hfresh hbadfact,
    foundationFoodsRows_error cats defaultId rows [] hbadfood⟩

/-- A food source row with a NULL description. -/
def badRowsW : List FoodSrcRow := [⟨some 10, none, none⟩]

/-- C8 witness: the amended policy at batch size 1, checkpoint
interval 1, the one-bad-row fact file and the one-bad-row food file. -/
theorem c8_amended_row_error_policy_witness :
    (0 < 1 ∧ latestInProgress (ImportState.mk [] []).log = none ∧
      (∃ r ∈ badFileW, r.amount = Amt.bad) ∧
      (∃ r ∈ badRowsW, r.fdc_id = none ∨ r.description = none)) ∧
    ((∃ s, (nutrientDataImportGen 1 1 badFileW foodsW ⟨[], []⟩).1 = .error s) ∧
      foundationFoodsImport [] 1 badRowsW = .error ()) :=
  ⟨⟨by decide, rfl, by decide, by decide⟩,
    c8_amended_row_error_policy 1 1 (by decide) badFileW foodsW ⟨[], []⟩ rfl
      [] 1 badRowsW (by decide) (by decide)⟩

/-! ## C10: checkpoint-driven delete/resume semantics -/

/-- C10: `import_nutrient_data` starts fresh — deleting `food_nutrients`
— exactly on a log whose `in_progress` lookup is empty; a latest
`in_progress` row with a positive offset makes it resume keeping
`food_nutrients`; appending a `completed` row never changes the latest
`in_progress` row (the log is append-only and the resume query filters
on status), so after any full successful run that committed at least one
mid-run checkpoint the final state still resolves to a positive resume
offset: a later run resumes instead of starting fresh. -/
theorem c10_completed_run_still_resumes (B CI : ℕ) (hB : 0 < B) (file : List SrcRow)
    (foods : List Food) (st : ImportState) (hfresh : latestInProgress st.log = none)
    (hgood : NoBadAmounts file) (hid : (foods.map Food.id).Nodup) :
    (∀ s : ImportState, latestInProgress s.log = none →
      resumeStart s = (0, ⟨[], s.log⟩)) ∧
    (∀ (s : ImportState) (c : Ckpt), latestInProgress s.log = some c →
      0 < c.last_processed → resumeStart s = (c.last_processed, s)) ∧
    (∀ (log : List Ckpt) (p N : ℕ),
      latestInProgress (addCkpt log "completed" p N) = latestInProgress log) ∧
    (∃ st', (nutrientDataImportGen B CI file foods st).1 = .ok st' ∧
      ((nutrientDataImportGen B CI file foods st).2 ≠ [] →
        ∃ c, latestInProgress st'.log = some c ∧ 0 < c.last_processed ∧
          resumeStart st' = (c.last_processed, st'))) := by
  refine ⟨resumeStart_none, fun s c h hp => resumeStart_some_pos s c h hp,
    latestInProgress_addCkpt_completed, ?_⟩
  obtain ⟨st', heq, _, _, _, _, _, hresume⟩ :=
    fresh_run_spec B CI hB file foods st hfresh hgood hid
  refine ⟨st', heq, fun hne => ?_⟩
  obtain ⟨c, hc, hcp⟩ := hresume hne
  exact ⟨c, hc, hcp, resumeStart_some_pos st' c hc hcp⟩

/-- C10 witness: the delete/resume semantics at batch size 1,
checkpoint interval 1, the three-row file, one food, and an empty
initial state (whose run commits three checkpoints). -/
theorem c10_completed_run_still_resumes_witness :
    (0 < 1 ∧ latestInProgress (ImportState.mk [] []).log = none ∧
      NoBadAmounts fileW ∧ (foodsW.map Food.id).Nodup) ∧
    ((∀ s : ImportState, latestInProgress s.log = none →
        resumeStart s = (0, ⟨[], s.log⟩)) ∧
      (∀ (s : ImportState) (c : Ckpt), latestInProgress s.log = some c →
        0 < c.last_processed → resumeStart s = (c.last_processed, s)) ∧
      (∀ (log : List Ckpt) (p N : ℕ),
        latestInProgress (addCkpt log "completed" p N) = latestInProgress log) ∧
      (∃ st', (nutrientDataImportGen 1 1 fileW foodsW ⟨[], []⟩).1 = .ok st' ∧
        ((nutrientDataImportGen 1 1 fileW foodsW ⟨[], []⟩).2 ≠ [] →
          ∃ c, latestInProgress st'.log = some c ∧ 0 < c.last_processed ∧
            resumeStart st' = (c.last_processed, st')))) :=
  ⟨⟨by decide, rfl, show ∀ r ∈ fileW, r.amount ≠ Amt.bad from by decide, by decide⟩,
    c10_completed_run_still_resumes 1 1 (by decide) fileW foodsW ⟨[], []⟩ rfl
      (show ∀ r ∈ fileW, r.amount ≠ Amt.bad from by decide) (by decide)⟩
